import Mathlib

/-!
# Debug-Draw: draw-data builders and primitive emitters

A shallow embedding of `src/code/ddraw_vector_v2.cpp`, `ddraw_angle_v2.cpp` and
`ddraw_matrix_v2.cpp`.

Numbers: the program computes in `f32`/`f64`.  Both types hold reals here, and the
host's double-precision vector algebra (`MVector`) is the usual algebra of `ℝ³`.
The narrowing `(f32)` of the two draw-data builders is embedded twice: as the identity
(`prepareForDraw`, exact arithmetic) and as rounding to single precision
(`prepareForDrawF32`, with `castF32`).
-/

namespace DebugDraw

/-- `typedef float f32;` taken in exact arithmetic. -/
abbrev f32 : Type := ℝ

/-- `typedef double f64;` taken in exact arithmetic. -/
abbrev f64 : Type := ℝ

/-! ## Single precision -/

namespace F32

/-- Rounding of a real to an integer: to nearest, a tie to the even neighbour. -/
noncomputable def roundHalfEven (t : ℝ) : ℤ :=
  if t - ⌊t⌋ < 1 / 2 then ⌊t⌋
  else if 1 / 2 < t - ⌊t⌋ then ⌊t⌋ + 1
  else if Even ⌊t⌋ then ⌊t⌋ else ⌊t⌋ + 1

/-- The binary exponent of the single-precision binade of `x`: `⌊log₂ |x|⌋`, and `-126` for the
subnormal numbers below. -/
noncomputable def exponent (x : ℝ) : ℤ := max (Int.log 2 |x|) (-126)

/-- The spacing of the single-precision numbers in the binade of `x` (24 significant bits). -/
noncomputable def ulp (x : ℝ) : ℝ := (2 : ℝ) ^ (exponent x - 23)

/-- The real `x` rounded to single precision: to nearest, ties to even, the exponent not
bounded above. -/
noncomputable def round (x : ℝ) : ℝ := (roundHalfEven (x / ulp x) : ℝ) * ulp x

/-- `FLT_MAX`, the largest finite single-precision number: `(2^24 - 1) * 2^104`. -/
def maxFinite : ℝ := (2 ^ 24 - 1) * 2 ^ 104

end F32

/-- The narrowing `(f32)x` of a `double`, and the result of an operation computed in `f32`:
`x` rounded to single precision. `none`: the rounded value is beyond `FLT_MAX`, where the
program holds an infinity, which the reals here do not represent. -/
noncomputable def castF32 (x : f64) : Option f32 :=
  if |F32.round x| ≤ F32.maxFinite then some (F32.round x) else none

/-! ## Host types: `MVector`, `MPoint`, `MColor`, `MMatrix`, `MPlug` -/

/-- Host `MVector`: three `double` components. The default constructor is the zero vector. -/
@[ext] structure MVector where
  x : f64
  y : f64
  z : f64

/-- Host `MPoint`, by its cartesian coordinates (every point built here has `w = 1`). -/
abbrev MPoint : Type := MVector

/-- Host `MColor`: red, green, blue and alpha. -/
@[ext] structure MColor where
  r : f32
  g : f32
  b : f32
  a : f32

/-- Host `MMatrix`: `Matrix[row][col]`, rows and columns `0..3`. -/
abbrev MMatrix : Type := Fin 4 → Fin 4 → f64

/-- Host `M3dView::DisplayStatus`. -/
inductive DisplayStatus where
  | kActive
  | kLive
  | kDormant
  | kInvisible
  | kHilite
  | kTemplate
  | kActiveTemplate
  | kActiveComponent
  | kLead
  | kIntermediateObject
  | kActiveAffected
  | kNoStatus
  deriving DecidableEq, Repr

namespace MVector

/-- `MVector()` and `MVector Result = {}`: the zero vector. -/
def zero : MVector := ⟨0, 0, 0⟩

instance : Zero MVector := ⟨zero⟩

/-- Host `operator+`. -/
def add (a b : MVector) : MVector := ⟨a.x + b.x, a.y + b.y, a.z + b.z⟩

instance : Add MVector := ⟨add⟩

/-- Host unary `operator-`. -/
def neg (a : MVector) : MVector := ⟨-a.x, -a.y, -a.z⟩

instance : Neg MVector := ⟨neg⟩

/-- Host `operator*(double)`: the vector scaled. -/
def scale (a : MVector) (s : f64) : MVector := ⟨a.x * s, a.y * s, a.z * s⟩

instance : HMul MVector ℝ MVector := ⟨scale⟩

/-- Host `operator*(double, MVector)`: the scalar on the left. -/
instance : HMul ℝ MVector MVector := ⟨fun s a => scale a s⟩

/-- Host `operator*(MVector)`: the dot product. -/
def dot (a b : MVector) : f64 := a.x * b.x + a.y * b.y + a.z * b.z

/-- Host `operator^`: the cross product. -/
def cross (a b : MVector) : MVector :=
  ⟨a.y * b.z - a.z * b.y, a.z * b.x - a.x * b.z, a.x * b.y - a.y * b.x⟩

/-- Host `MVector::length`: the Euclidean length. -/
noncomputable def length (a : MVector) : f64 := Real.sqrt (a.x * a.x + a.y * a.y + a.z * a.z)

/-- Modelled from the spec: host `MVector::normal` (and the in-place `normalize`), "unit
vector; zero-length input produces a zero vector". -/
noncomputable def normal (a : MVector) : MVector :=
  if a.length = 0 then zero else ⟨a.x / a.length, a.y / a.length, a.z / a.length⟩

/-- Modelled from the spec: host `MVector::angle`, "radians in [0, π], using the standard
inverse-cosine-of-normalized-dot-product formulation". -/
noncomputable def angle (a b : MVector) : f64 :=
  Real.arccos (dot a b / (a.length * b.length))

/-- Modelled from the spec: host `MVector::isEquivalent(other, tolerance)`, "within the host's
floating tolerance": no component differs by more than `tolerance`. -/
def isEquivalent (a other : MVector) (tolerance : f64) : Prop :=
  |a.x - other.x| ≤ tolerance ∧ |a.y - other.y| ≤ tolerance ∧ |a.z - other.z| ≤ tolerance

noncomputable instance (a other : MVector) (tolerance : f64) :
    Decidable (isEquivalent a other tolerance) := by
  unfold isEquivalent
  infer_instance

end MVector

/-- Host constant `MVector_kTol`: the default tolerance of `MVector::isEquivalent`. -/
noncomputable def MVector_kTol : f64 := 1.0e-10

namespace MColor

/-- `MColor()` and `MColor Result = {}`: opaque black. -/
def default : MColor := ⟨0, 0, 0, 1⟩

/-- `MColor(r, g, b)`: alpha is `1`. -/
def rgb (r g b : f32) : MColor := ⟨r, g, b, 1⟩

end MColor

/-- Host `MUIDrawManager::TextAlignment`. -/
inductive TextAlignment where
  | kLeft
  | kCenter
  | kRight
  deriving DecidableEq, Repr

/-- The text `_snprintf_s` writes: the format string and its arguments, not rendered. -/
structure FormattedText where
  format : String
  args : List f64

/-- One call on the host's `MUIDrawManager`. -/
inductive DrawCall where
  | beginDrawable
  | setColor (color : MColor)
  | setLineWidth (width : f32)
  | line (startPoint endPoint : MPoint)
  | cone (base : MPoint) (direction : MVector) (radius height : f64) (filled : Bool)
  | arc (center : MPoint) (start finish normal : MVector) (radius : f64)
  | lineList (points : List MPoint) (draw2D : Bool)
  | text (position : MPoint) (text : FormattedText) (alignment : TextAlignment)
  | endDrawable

/-- Whether the call is a `lineList`. -/
def DrawCall.isLineList : DrawCall → Bool
  | .lineList _ _ => true
  | _ => false

/-- Whether the call is an `arc`. -/
def DrawCall.isArc : DrawCall → Bool
  | .arc _ _ _ _ _ => true
  | _ => false

/-- The colours of the `setColor` calls of a call sequence, in order. -/
def setColors : List DrawCall → List MColor
  | [] => []
  | DrawCall.setColor color :: rest => color :: setColors rest
  | _ :: rest => setColors rest

/-- The point arrays of the `lineList` calls of a call sequence, in order. -/
def lineListPoints : List DrawCall → List (List MPoint)
  | [] => []
  | DrawCall.lineList points _ :: rest => points :: lineListPoints rest
  | _ :: rest => lineListPoints rest

/-! ## Shared helpers of `ddraw_vector_v2.cpp` -/

/-- `DrawVector`: the arrow, a line and a capped cone in one drawable. -/
noncomputable def DrawVector (Origin End : MVector) (Color : MColor)
    (ConeHeight ConeRadius : f32) : List DrawCall :=
  let Magnitude : f32 := End.length
  let Direction : MVector := End.normal
  let DrawPosition : MVector := ((Magnitude - ConeHeight) * Direction) + Origin
  [ DrawCall.beginDrawable,
    DrawCall.setColor Color,
    DrawCall.setLineWidth 2,
    DrawCall.line Origin DrawPosition,
    DrawCall.cone DrawPosition Direction ConeRadius ConeHeight true,
    DrawCall.endDrawable ]

/-- Default argument `ConeHeight = 0.1f` of `DrawVector`. -/
noncomputable def DrawVector.defaultConeHeight : f32 := 0.1

/-- Default argument `ConeRadius = 0.05f` of `DrawVector`. -/
noncomputable def DrawVector.defaultConeRadius : f32 := 0.05

/-! ## Vector visualizer: `ddraw_vector_v2.h`, `ddraw_vector_v2.cpp` -/

/-- Class `DDrawVectorData`. -/
structure DDrawVectorData where
  origin : MVector
  vectorPoint : MVector
  endPoint : MVector
  magnitude : f32
  magnitudeDrawPosition : MPoint
  vectorColor : MColor
  textColor : MColor
  coneRadius : f32
  coneHeight : f32
  displayText : Bool
  status : DisplayStatus

/-- What `DDrawVectorDrawOverride::prepareForDraw` reads from the host (lines 116-129):
the display status and the node's attributes, the compound ones already through
`GetMVectorFromCompound` / `GetMColorFromCompound`. -/
structure VectorAttributes where
  status : DisplayStatus
  Origin : MVector
  EndPoint : MVector
  VectorColor : MColor
  TextColor : MColor
  ConeHeight : f32
  ConeRadius : f32
  DisplayText : Bool

/-- Local `Direction` of `DDrawVectorDrawOverride::prepareForDraw` (line 135). -/
noncomputable def prepareForDrawDirection (a : VectorAttributes) : MVector :=
  a.EndPoint.normal

/-- `DDrawVectorDrawOverride::prepareForDraw` in exact arithmetic: the narrowing `(f32)` of
line 133 is the identity here (`prepareForDrawF32` has it as rounding). `oldData` is the cached
record, if any; `fresh` is what `new DDrawVectorData()` holds before the assignments. -/
noncomputable def DDrawVectorDrawOverride.prepareForDraw (a : VectorAttributes)
    (oldData : Option DDrawVectorData) (fresh : DDrawVectorData) : DDrawVectorData :=
  let data := match oldData with
    | some d => d
    | none => fresh
  let data := { data with status := a.status }
  let WrldEndPoint : MVector := a.EndPoint + a.Origin
  let Magnitude : f32 := a.EndPoint.length
  let Direction : MVector := prepareForDrawDirection a
  let MagnitudeDrawPosition : MVector := a.Origin + (Direction * (Magnitude / 2))
  let data := { data with origin := a.Origin }
  let data := { data with vectorPoint := a.EndPoint }
  let data := { data with endPoint := WrldEndPoint }
  let data := { data with magnitude := Magnitude }
  let data := { data with magnitudeDrawPosition := MagnitudeDrawPosition }
  let data := { data with vectorColor := a.VectorColor }
  let data := { data with textColor := a.TextColor }
  let data := { data with coneRadius := a.ConeRadius }
  let data := { data with coneHeight := a.ConeHeight }
  let data := { data with displayText := a.DisplayText }
  data

/-- `DDrawVectorDrawOverride::prepareForDraw` with its single-precision steps: the narrowing
`(f32)EndPoint.length()` of line 133 and the `f32` quotient `Magnitude / 2.0f` of line 136.
`oldData` and `fresh` are as for `prepareForDraw`; `none`: the length is beyond the finite range
of single precision. -/
noncomputable def DDrawVectorDrawOverride.prepareForDrawF32 (a : VectorAttributes)
    (oldData : Option DDrawVectorData) (fresh : DDrawVectorData) : Option DDrawVectorData :=
  let data := match oldData with
    | some d => d
    | none => fresh
  let data := { data with status := a.status }
  let WrldEndPoint : MVector := a.EndPoint + a.Origin
  match castF32 a.EndPoint.length with
  | none => none
  | some Magnitude =>
    let Direction : MVector := a.EndPoint.normal
    match castF32 (Magnitude / 2) with
    | none => none
    | some HalfMagnitude =>
      let MagnitudeDrawPosition : MVector := a.Origin + (Direction * HalfMagnitude)
      let data := { data with origin := a.Origin }
      let data := { data with vectorPoint := a.EndPoint }
      let data := { data with endPoint := WrldEndPoint }
      let data := { data with magnitude := Magnitude }
      let data := { data with magnitudeDrawPosition := MagnitudeDrawPosition }
      let data := { data with vectorColor := a.VectorColor }
      let data := { data with textColor := a.TextColor }
      let data := { data with coneRadius := a.ConeRadius }
      let data := { data with coneHeight := a.ConeHeight }
      let data := { data with displayText := a.DisplayText }
      some data

/-- Locals `vectorColor, textColor` of `DDrawVectorDrawOverride::addUIDrawables` after the
selection on the display status (lines 193-208). -/
noncomputable def addUIDrawablesColors (NewData : DDrawVectorData) : MColor × MColor :=
  if NewData.status = DisplayStatus.kActive then
    (MColor.rgb 1.0 1.0 1.0, MColor.rgb 1.0 1.0 1.0)
  else if NewData.status = DisplayStatus.kLead then
    (MColor.rgb 0.26 1.0 0.64, MColor.rgb 0.26 1.0 0.64)
  else
    (NewData.vectorColor, NewData.textColor)

/-- `DDrawVectorDrawOverride::addUIDrawables`: the draw manager's calls, in order. `data` is
`none` for a null pointer. -/
noncomputable def DDrawVectorDrawOverride.addUIDrawables (data : Option DDrawVectorData) :
    List DrawCall :=
  match data with
  | none => []
  | some NewData =>
    let vectorColor : MColor := (addUIDrawablesColors NewData).1
    let textColor : MColor := (addUIDrawablesColors NewData).2
    DrawVector NewData.origin NewData.vectorPoint vectorColor
        NewData.coneHeight NewData.coneRadius
      ++ (if NewData.displayText then
            [ DrawCall.beginDrawable,
              DrawCall.setColor textColor,
              DrawCall.text NewData.endPoint
                ⟨"\x7b%.02f, %.02f, %.02f\x7d \n",
                  [NewData.endPoint.x, NewData.endPoint.y, NewData.endPoint.z]⟩
                TextAlignment.kCenter,
              DrawCall.text NewData.magnitudeDrawPosition
                ⟨"%.02f", [NewData.magnitude]⟩ TextAlignment.kLeft,
              DrawCall.endDrawable ]
          else [])

/-! ## Angle visualizer: `ddraw_angle_v2.h`, `ddraw_angle_v2.cpp` -/

/-- Class `DDrawAngleData`. -/
structure DDrawAngleData where
  V1 : MVector
  V2 : MVector
  origin : MVector
  plane : MVector
  radians : f32
  degrees : f32
  textColor : MColor

/-- What `DDrawAngleDrawOverride::prepareForDraw` reads from the node (lines 55-73), the
compound attributes already through `GetMVectorFromCompound` / `GetMColorFromCompound`. -/
structure AngleAttributes where
  V1 : MVector
  V2 : MVector
  Normalize : Bool
  origin : MVector
  textColor : MColor

/-- `DDrawAngleDrawOverride::prepareForDraw` in exact arithmetic: the narrowing `(f32)` of
line 70 and the `f32` product of line 71 are exact here (`prepareForDrawF32` has them as
rounding). `oldData` is the cached record, if any; `fresh` is what `new DDrawAngleData()` holds
before the assignments. -/
noncomputable def DDrawAngleDrawOverride.prepareForDraw (a : AngleAttributes)
    (oldData : Option DDrawAngleData) (fresh : DDrawAngleData) : DDrawAngleData :=
  let data := match oldData with
    | some d => d
    | none => fresh
  let V1 : MVector := if a.Normalize then a.V1.normal else a.V1
  let V2 : MVector := if a.Normalize then a.V2.normal else a.V2
  let data := { data with V1 := V1 }
  let data := { data with V2 := V2 }
  let data := { data with origin := a.origin }
  let data := { data with plane := data.V1.cross data.V2 }
  let data := { data with radians := data.V1.angle data.V2 }
  let data := { data with degrees := data.radians * 57.2957795 }
  let data := { data with textColor := a.textColor }
  data

/-- `DDrawAngleDrawOverride::prepareForDraw` with its single-precision steps: the narrowing
`(f32)data->V1.angle(data->V2)` of line 70 and the `f32` product with the `f32` constant
`57.2957795f` of line 71. `oldData` and `fresh` are as for `prepareForDraw`; `none`: a value
beyond the finite range of single precision. -/
noncomputable def DDrawAngleDrawOverride.prepareForDrawF32 (a : AngleAttributes)
    (oldData : Option DDrawAngleData) (fresh : DDrawAngleData) : Option DDrawAngleData :=
  let data := match oldData with
    | some d => d
    | none => fresh
  let V1 : MVector := if a.Normalize then a.V1.normal else a.V1
  let V2 : MVector := if a.Normalize then a.V2.normal else a.V2
  let data := { data with V1 := V1 }
  let data := { data with V2 := V2 }
  let data := { data with origin := a.origin }
  let data := { data with plane := data.V1.cross data.V2 }
  match castF32 (data.V1.angle data.V2) with
  | none => none
  | some radians =>
    let data := { data with radians := radians }
    match castF32 (data.radians * F32.round 57.2957795) with
    | none => none
    | some degrees =>
      let data := { data with degrees := degrees }
      let data := { data with textColor := a.textColor }
      some data

/-- The right-angle test of `DDrawAngleDrawOverride::addUIDrawables` (lines 118-119):
`MVector(degrees, 0, 0).isEquivalent(MVector(90, 0, 0))` at the host's `tolerance`. -/
def rightAngleTick (tolerance : f64) (NewData : DDrawAngleData) : Prop :=
  MVector.isEquivalent ⟨NewData.degrees, 0, 0⟩ ⟨90, 0, 0⟩ tolerance

noncomputable instance (tolerance : f64) (NewData : DDrawAngleData) :
    Decidable (rightAngleTick tolerance NewData) := by
  unfold rightAngleTick
  infer_instance

/-- `DDrawAngleDrawOverride::addUIDrawables`: the draw manager's calls, in order. `data` is
`none` for a null pointer; `tolerance` is the default tolerance of `isEquivalent`. -/
noncomputable def DDrawAngleDrawOverride.addUIDrawables (tolerance : f64)
    (data : Option DDrawAngleData) : List DrawCall :=
  match data with
  | none => []
  | some NewData =>
    let V1Magnitude : f32 := NewData.V1.length
    let V2Magnitude : f32 := NewData.V2.length
    let Mult : f32 := if V1Magnitude < V2Magnitude then V1Magnitude else V2Magnitude
    let ReductionScale : f64 := 0.1
    let V1Reduced : MPoint := (NewData.V1.normal * Mult) * ReductionScale
    let V2Reduced : MPoint := (NewData.V2.normal * Mult) * ReductionScale
    let VAddition : MPoint := V1Reduced + V2Reduced
    DrawVector NewData.origin NewData.V1 (MColor.rgb 1 0 0)
        DrawVector.defaultConeHeight DrawVector.defaultConeRadius
      ++ DrawVector NewData.origin NewData.V2 (MColor.rgb 0 1 0)
        DrawVector.defaultConeHeight DrawVector.defaultConeRadius
      ++ [ DrawCall.beginDrawable,
           DrawCall.setLineWidth 2,
           DrawCall.arc NewData.origin NewData.V1 NewData.V2 NewData.plane (Mult * 0.3) ]
      ++ (if rightAngleTick tolerance NewData then
            [ DrawCall.lineList [V1Reduced, VAddition, VAddition, V2Reduced] false ]
          else [])
      ++ [ DrawCall.setColor NewData.textColor,
           DrawCall.text NewData.origin
             ⟨"%.02fdeg|%.02frad", [NewData.degrees, NewData.radians]⟩ TextAlignment.kLeft,
           DrawCall.endDrawable ]

/-! ## Matrix visualizer: `ddraw_matrix_v2.h`, `ddraw_matrix_v2.cpp` -/

/-- Class `DDrawMatrixData`. -/
structure DDrawMatrixData where
  Position : MVector
  XAxis : MVector
  YAxis : MVector
  ZAxis : MVector
  TextColor : MColor
  DisplayText : Bool

/-- What `DDrawMatrixDrawOverride::prepareForDraw` reads from the node (lines 56-71), the
colour already through `GetMColorFromCompound`. -/
structure MatrixAttributes where
  Matrix : MMatrix
  TextColor : MColor
  DisplayText : Bool

/-- `DDrawMatrixDrawOverride::prepareForDraw`. `oldData` is the cached record, if any;
`fresh` is what `new DDrawMatrixData()` holds before the assignments. -/
def DDrawMatrixDrawOverride.prepareForDraw (a : MatrixAttributes)
    (oldData : Option DDrawMatrixData) (fresh : DDrawMatrixData) : DDrawMatrixData :=
  let data := match oldData with
    | some d => d
    | none => fresh
  let Matrix := a.Matrix
  let XAxisRow : Fin 3 → f64 := ![Matrix 0 0, Matrix 0 1, Matrix 0 2]
  let YAxisRow : Fin 3 → f64 := ![Matrix 1 0, Matrix 1 1, Matrix 1 2]
  let ZAxisRow : Fin 3 → f64 := ![Matrix 2 0, Matrix 2 1, Matrix 2 2]
  let PositionRow : Fin 3 → f64 := ![Matrix 3 0, Matrix 3 1, Matrix 3 2]
  let data := { data with Position := ⟨PositionRow 0, PositionRow 1, PositionRow 2⟩ }
  let data := { data with XAxis := ⟨XAxisRow 0, XAxisRow 1, XAxisRow 2⟩ }
  let data := { data with YAxis := ⟨YAxisRow 0, YAxisRow 1, YAxisRow 2⟩ }
  let data := { data with ZAxis := ⟨ZAxisRow 0, ZAxisRow 1, ZAxisRow 2⟩ }
  let data := { data with TextColor := a.TextColor }
  let data := { data with DisplayText := a.DisplayText }
  data

/-- The matrix `M` with its fourth column (`M[i][3]`) replaced by `col`. -/
def withFourthColumn (M : MMatrix) (col : Fin 4 → f64) : MMatrix :=
  fun i j => if j = 3 then col i else M i j

/-- The identity matrix with translation `(5, 0, 0)` in row 3. -/
def identityTranslated5 : MMatrix :=
  ![![1, 0, 0, 0], ![0, 1, 0, 0], ![0, 0, 1, 0], ![5, 0, 0, 1]]

/-! ## Example inputs -/

/-- A vector node at status dormant, origin `(1, 2, 3)`, end point `(0, 3, 0)`, the other
attributes at the defaults `DDrawVector::initialize` declares. -/
noncomputable def exampleVectorAttributes : VectorAttributes where
  status := DisplayStatus.kDormant
  Origin := ⟨1, 2, 3⟩
  EndPoint := ⟨0, 3, 0⟩
  VectorColor := MColor.rgb 0 0.4 1
  TextColor := MColor.rgb 1 1 1
  ConeHeight := 0.2
  ConeRadius := 0.1
  DisplayText := true

/-- A `DDrawVectorData` record with every field zero. -/
def exampleVectorData : DDrawVectorData where
  origin := MVector.zero
  vectorPoint := MVector.zero
  endPoint := MVector.zero
  magnitude := 0
  magnitudeDrawPosition := MVector.zero
  vectorColor := MColor.default
  textColor := MColor.default
  coneRadius := 0
  coneHeight := 0
  displayText := false
  status := DisplayStatus.kNoStatus

/-- An angle node with the defaults `DDrawAngle::initialize` declares: `vector1 = (1, 0, 0)`,
`vector2 = (0, 1, 0)`, `normalize` on. -/
def exampleAngleAttributes : AngleAttributes where
  V1 := ⟨1, 0, 0⟩
  V2 := ⟨0, 1, 0⟩
  Normalize := true
  origin := MVector.zero
  textColor := MColor.rgb 1 1 1

/-- An angle node whose two vectors are both `(1, 0, 0)`. -/
def exampleSameAngleAttributes : AngleAttributes where
  V1 := ⟨1, 0, 0⟩
  V2 := ⟨1, 0, 0⟩
  Normalize := true
  origin := MVector.zero
  textColor := MColor.rgb 1 1 1

/-- A `DDrawAngleData` record with every field zero. -/
def exampleAngleData : DDrawAngleData where
  V1 := MVector.zero
  V2 := MVector.zero
  origin := MVector.zero
  plane := MVector.zero
  radians := 0
  degrees := 0
  textColor := MColor.default

/-- An angle record with parallel vectors: `V1 = V2 = (1, 0, 0)` at origin `(1, 2, 3)`, so the
plane is the zero vector and the angle is zero. -/
def exampleParallelData : DDrawAngleData where
  V1 := ⟨1, 0, 0⟩
  V2 := ⟨1, 0, 0⟩
  origin := ⟨1, 2, 3⟩
  plane := ⟨0, 0, 0⟩
  radians := 0
  degrees := 0
  textColor := MColor.rgb 1 1 1

/-- An angle record at a right angle: `V1 = (2, 0, 0)`, `V2 = (0, 1, 0)` at origin `(1, 2, 3)`,
with `degrees` stored as `90`. -/
noncomputable def exampleRightAngleData : DDrawAngleData where
  V1 := ⟨2, 0, 0⟩
  V2 := ⟨0, 1, 0⟩
  origin := ⟨1, 2, 3⟩
  plane := ⟨0, 0, 2⟩
  radians := 1.5707964
  degrees := 90
  textColor := MColor.rgb 1 1 1

/-! ## Facts about the host's vector algebra -/

namespace MVector

theorem length_nonneg (a : MVector) : 0 ≤ a.length := Real.sqrt_nonneg _

theorem sq_sum_nonneg (a : MVector) : 0 ≤ a.x * a.x + a.y * a.y + a.z * a.z := by
  nlinarith [mul_self_nonneg a.x, mul_self_nonneg a.y, mul_self_nonneg a.z]

theorem length_mul_self (a : MVector) :
    a.length * a.length = a.x * a.x + a.y * a.y + a.z * a.z :=
  Real.mul_self_sqrt a.sq_sum_nonneg

theorem length_eq_zero_iff (a : MVector) : a.length = 0 ↔ a = zero := by
  constructor
  · intro h
    have hs : a.x * a.x + a.y * a.y + a.z * a.z = 0 := by
      rw [← length_mul_self, h, mul_zero]
    have hx : a.x = 0 := by nlinarith [mul_self_nonneg a.x, mul_self_nonneg a.y, mul_self_nonneg a.z]
    have hy : a.y = 0 := by nlinarith [mul_self_nonneg a.x, mul_self_nonneg a.y, mul_self_nonneg a.z]
    have hz : a.z = 0 := by nlinarith [mul_self_nonneg a.x, mul_self_nonneg a.y, mul_self_nonneg a.z]
    ext
    · exact hx
    · exact hy
    · exact hz
  · intro h
    subst h
    simp [length, zero]

theorem length_pos_of_ne {a : MVector} (h : a ≠ zero) : 0 < a.length :=
  lt_of_le_of_ne a.length_nonneg (fun h0 => h ((length_eq_zero_iff a).1 h0.symm))

theorem normal_of_ne {a : MVector} (h : a ≠ zero) :
    a.normal = ⟨a.x / a.length, a.y / a.length, a.z / a.length⟩ := by
  unfold normal
  rw [if_neg (fun h0 => h ((length_eq_zero_iff a).1 h0))]

theorem normal_zero : zero.normal = zero := by
  unfold normal
  rw [if_pos ((length_eq_zero_iff zero).2 rfl)]

/-- The length of `(0, 3, 0)` is `3`. -/
theorem length_0_3_0 : (⟨0, 3, 0⟩ : MVector).length = 3 := by
  have h : (0 : ℝ) * 0 + 3 * 3 + 0 * 0 = 3 * 3 := by norm_num
  unfold length
  simp only [h]
  exact Real.sqrt_mul_self (by norm_num)

theorem normal_ne_zero {a : MVector} (h : a ≠ zero) : a.normal ≠ zero := by
  have hne : a.length ≠ 0 := ne_of_gt (length_pos_of_ne h)
  rw [normal_of_ne h]
  intro h0
  apply h
  have hx := congrArg MVector.x h0
  have hy := congrArg MVector.y h0
  have hz := congrArg MVector.z h0
  simp only [zero, div_eq_zero_iff, hne, or_false] at hx hy hz
  ext
  · exact hx
  · exact hy
  · exact hz

theorem dot_comm (a b : MVector) : dot a b = dot b a := by
  simp only [dot]
  ring

theorem angle_comm (a b : MVector) : angle a b = angle b a := by
  simp only [angle, dot_comm a b, mul_comm a.length b.length]

theorem angle_self {a : MVector} (h : a ≠ zero) : angle a a = 0 := by
  have hpos : 0 < a.length := length_pos_of_ne h
  have h1 : dot a a / (a.length * a.length) = 1 := by
    have hd : dot a a = a.length * a.length := (length_mul_self a).symm
    rw [hd]
    exact div_self (ne_of_gt (mul_pos hpos hpos))
  simp only [angle, h1, Real.arccos_one]

theorem cross_self (a : MVector) : cross a a = zero := by
  simp only [cross, zero]
  ext
  · show a.y * a.z - a.z * a.y = 0
    ring
  · show a.z * a.x - a.x * a.z = 0
    ring
  · show a.x * a.y - a.y * a.x = 0
    ring

theorem cross_anticomm (a b : MVector) : cross b a = -(cross a b) := by
  show cross b a = neg (cross a b)
  simp only [cross, neg]
  ext
  · show b.y * a.z - b.z * a.y = -(a.y * b.z - a.z * b.y)
    ring
  · show b.z * a.x - b.x * a.z = -(a.z * b.x - a.x * b.z)
    ring
  · show b.x * a.y - b.y * a.x = -(a.x * b.y - a.y * b.x)
    ring

end MVector

/-! ## Facts about single-precision rounding -/

theorem F32.floor_le_roundHalfEven (t : ℝ) : ⌊t⌋ ≤ F32.roundHalfEven t := by
  unfold F32.roundHalfEven
  split_ifs <;> omega

theorem F32.roundHalfEven_le_floor_add_one (t : ℝ) : F32.roundHalfEven t ≤ ⌊t⌋ + 1 := by
  unfold F32.roundHalfEven
  split_ifs <;> omega

theorem F32.roundHalfEven_eq (t : ℝ) (n : ℤ) (hlo : (n : ℝ) - 1 / 2 < t)
    (hhi : t < (n : ℝ) + 1 / 2) : F32.roundHalfEven t = n := by
  unfold F32.roundHalfEven
  by_cases hn : (n : ℝ) ≤ t
  · have hf : ⌊t⌋ = n := by
      rw [Int.floor_eq_iff]
      constructor
      · exact hn
      · linarith
    rw [hf, if_pos (by linarith)]
  · have hn2 : t < n := not_le.1 hn
    have hf : ⌊t⌋ = n - 1 := by
      rw [Int.floor_eq_iff]
      push_cast
      constructor <;> linarith
    rw [hf]
    push_cast
    rw [if_neg (by linarith), if_pos (by linarith)]
    ring

theorem F32.roundHalfEven_le (t : ℝ) (n : ℤ) (h : t ≤ n) : F32.roundHalfEven t ≤ n := by
  have hf : ⌊t⌋ ≤ n := Int.floor_le_iff.2 (by linarith)
  rcases lt_or_eq_of_le hf with hlt | heq
  · have := F32.roundHalfEven_le_floor_add_one t
    omega
  · have h1 : (n : ℝ) ≤ t := by
      rw [← heq]
      exact Int.floor_le t
    have ht : t = n := le_antisymm h h1
    rw [F32.roundHalfEven_eq t n (by linarith) (by linarith)]

theorem F32.le_roundHalfEven (t : ℝ) (n : ℤ) (h : (n : ℝ) ≤ t) : n ≤ F32.roundHalfEven t :=
  le_trans (Int.le_floor.2 h) (F32.floor_le_roundHalfEven t)

theorem F32.abs_roundHalfEven_sub_le (t : ℝ) : |(F32.roundHalfEven t : ℝ) - t| ≤ 1 / 2 := by
  have h1 := Int.floor_le t
  have h2 := Int.lt_floor_add_one t
  unfold F32.roundHalfEven
  rw [abs_le]
  split_ifs with ha hb hc
  · constructor <;> linarith
  · push_cast
    constructor <;> linarith
  · constructor <;> linarith
  · push_cast
    constructor <;> linarith

theorem F32.ulp_pos (x : ℝ) : 0 < F32.ulp x := zpow_pos (by norm_num) _

/-- Rounding moves a number by at most half the spacing of its binade. -/
theorem F32.abs_round_sub_le (x : ℝ) : |F32.round x - x| ≤ F32.ulp x / 2 := by
  have hq := F32.ulp_pos x
  have h := F32.abs_roundHalfEven_sub_le (x / F32.ulp x)
  have e : F32.round x - x
      = ((F32.roundHalfEven (x / F32.ulp x) : ℝ) - x / F32.ulp x) * F32.ulp x := by
    unfold F32.round
    field_simp
  rw [e, abs_mul, abs_of_pos hq]
  calc |(F32.roundHalfEven (x / F32.ulp x) : ℝ) - x / F32.ulp x| * F32.ulp x
      ≤ 1 / 2 * F32.ulp x := mul_le_mul_of_nonneg_right h (le_of_lt hq)
    _ = F32.ulp x / 2 := by ring

/-- The exponent of a number in the binade `[2^e, 2^(e+1))`, `e` not below `-126`. -/
theorem F32.exponent_eq (x : ℝ) (e : ℤ) (he : -126 ≤ e) (h1 : (2 : ℝ) ^ e ≤ |x|)
    (h2 : |x| < (2 : ℝ) ^ (e + 1)) : F32.exponent x = e := by
  have hpos : 0 < |x| := lt_of_lt_of_le (zpow_pos (by norm_num) e) h1
  have hle : e ≤ Int.log 2 |x| := by
    rw [← Int.zpow_le_iff_le_log (by norm_num) hpos]
    simpa using h1
  have hlt : Int.log 2 |x| < e + 1 := by
    rw [← Int.lt_zpow_iff_log_lt (by norm_num) hpos]
    simpa using h2
  unfold F32.exponent
  omega

/-- The exponent of a number below `2^(e+1)` is at most `e`, for `e` not negative. -/
theorem F32.exponent_le (x : ℝ) (e : ℤ) (he : 0 ≤ e) (h2 : |x| < (2 : ℝ) ^ (e + 1)) :
    F32.exponent x ≤ e := by
  unfold F32.exponent
  rcases eq_or_lt_of_le (abs_nonneg x) with h0 | hpos
  · rw [← h0, Int.log_zero_right]
    omega
  · have hlt : Int.log 2 |x| < e + 1 := by
      rw [← Int.lt_zpow_iff_log_lt (by norm_num) hpos]
      simpa using h2
    omega

/-- The value of a rounding, from the binade of the number and the two half-way points around
the result. -/
theorem F32.round_eq (x : ℝ) (e n : ℤ) (he : -126 ≤ e) (h1 : (2 : ℝ) ^ e ≤ |x|)
    (h2 : |x| < (2 : ℝ) ^ (e + 1)) (hlo : ((n : ℝ) - 1 / 2) * (2 : ℝ) ^ (e - 23) < x)
    (hhi : x < ((n : ℝ) + 1 / 2) * (2 : ℝ) ^ (e - 23)) :
    F32.round x = (n : ℝ) * (2 : ℝ) ^ (e - 23) := by
  have hq : (0 : ℝ) < (2 : ℝ) ^ (e - 23) := zpow_pos (by norm_num) _
  unfold F32.round F32.ulp
  rw [F32.exponent_eq x e he h1 h2]
  rw [F32.roundHalfEven_eq (x / (2 : ℝ) ^ (e - 23)) n]
  · rw [lt_div_iff₀ hq]
    exact hlo
  · rw [div_lt_iff₀ hq]
    exact hhi

/-- A rounding does not pass a number `m * 2^j` of a grid at least as coarse as its own. -/
theorem F32.round_le_of_le (x : ℝ) (m j : ℤ) (hj : F32.exponent x - 23 ≤ j)
    (hx : x ≤ (m : ℝ) * (2 : ℝ) ^ j) : F32.round x ≤ (m : ℝ) * (2 : ℝ) ^ j := by
  have hq := F32.ulp_pos x
  obtain ⟨k, hk⟩ : ∃ k : ℕ, j = (F32.exponent x - 23) + k :=
    ⟨(j - (F32.exponent x - 23)).toNat, by omega⟩
  have hgrid : (m : ℝ) * (2 : ℝ) ^ j = ((m * 2 ^ k : ℤ) : ℝ) * F32.ulp x := by
    unfold F32.ulp
    rw [hk, zpow_add₀ (by norm_num : (2 : ℝ) ≠ 0), zpow_natCast]
    push_cast
    ring
  rw [hgrid] at hx ⊢
  unfold F32.round
  have ht : x / F32.ulp x ≤ ((m * 2 ^ k : ℤ) : ℝ) := by
    rw [div_le_iff₀ hq]
    exact hx
  have := F32.roundHalfEven_le _ _ ht
  exact mul_le_mul_of_nonneg_right (by exact_mod_cast this) (le_of_lt hq)

theorem F32.le_round_of_le (x : ℝ) (m j : ℤ) (hj : F32.exponent x - 23 ≤ j)
    (hx : (m : ℝ) * (2 : ℝ) ^ j ≤ x) : (m : ℝ) * (2 : ℝ) ^ j ≤ F32.round x := by
  have hq := F32.ulp_pos x
  obtain ⟨k, hk⟩ : ∃ k : ℕ, j = (F32.exponent x - 23) + k :=
    ⟨(j - (F32.exponent x - 23)).toNat, by omega⟩
  have hgrid : (m : ℝ) * (2 : ℝ) ^ j = ((m * 2 ^ k : ℤ) : ℝ) * F32.ulp x := by
    unfold F32.ulp
    rw [hk, zpow_add₀ (by norm_num : (2 : ℝ) ≠ 0), zpow_natCast]
    push_cast
    ring
  rw [hgrid] at hx ⊢
  unfold F32.round
  have ht : ((m * 2 ^ k : ℤ) : ℝ) ≤ x / F32.ulp x := by
    rw [le_div_iff₀ hq]
    exact hx
  have := F32.le_roundHalfEven _ _ ht
  exact mul_le_mul_of_nonneg_right (by exact_mod_cast this) (le_of_lt hq)

/-- Rounding a number within the finite range stays within it. -/
theorem F32.abs_round_le_maxFinite (x : ℝ) (h : |x| ≤ F32.maxFinite) :
    |F32.round x| ≤ F32.maxFinite := by
  have hmax : F32.maxFinite = ((2 ^ 24 - 1 : ℤ) : ℝ) * (2 : ℝ) ^ (104 : ℤ) := by
    unfold F32.maxFinite
    norm_num
  have hmaxn : -F32.maxFinite = ((-(2 ^ 24 - 1) : ℤ) : ℝ) * (2 : ℝ) ^ (104 : ℤ) := by
    unfold F32.maxFinite
    norm_num
  have hlt : |x| < (2 : ℝ) ^ ((127 : ℤ) + 1) := by
    refine lt_of_le_of_lt h ?_
    unfold F32.maxFinite
    norm_num
  have he : F32.exponent x - 23 ≤ 104 := by
    have := F32.exponent_le x 127 (by norm_num) hlt
    omega
  have hx := abs_le.1 h
  rw [abs_le]
  constructor
  · rw [hmaxn] at hx ⊢
    exact F32.le_round_of_le x _ 104 he hx.1
  · rw [hmax] at hx ⊢
    exact F32.round_le_of_le x _ 104 he hx.2

/-- A number within the finite range narrows to its rounding. -/
theorem castF32_of_abs_le (x : ℝ) (h : |x| ≤ F32.maxFinite) :
    castF32 x = some (F32.round x) := by
  unfold castF32
  rw [if_pos (F32.abs_round_le_maxFinite x h)]

/-- A number whose rounding is finite narrows to that rounding. -/
theorem castF32_of_round_le (x : ℝ) (h : |F32.round x| ≤ F32.maxFinite) :
    castF32 x = some (F32.round x) := by
  unfold castF32
  rw [if_pos h]

/-- `3` and `1.5` are single-precision numbers. -/
theorem F32.round_three : F32.round 3 = 3 ∧ F32.round (3 / 2) = 3 / 2 := by
  constructor
  · rw [F32.round_eq 3 1 12582912 (by norm_num) (by norm_num) (by norm_num) (by norm_num)
      (by norm_num)]
    norm_num
  · have h : |(3 / 2 : ℝ)| = 3 / 2 := abs_of_pos (by norm_num)
    rw [F32.round_eq (3 / 2) 0 12582912 (by norm_num) (by rw [h]; norm_num)
      (by rw [h]; norm_num) (by norm_num) (by norm_num)]
    norm_num

/-- The single-precision constant `57.2957795f`. -/
theorem F32.round_degrees_constant : F32.round 57.2957795 = 15019745 / 262144 := by
  have h : |(57.2957795 : ℝ)| = 57.2957795 := abs_of_pos (by norm_num)
  rw [F32.round_eq 57.2957795 5 15019745 (by norm_num) (by rw [h]; norm_num)
    (by rw [h]; norm_num) (by norm_num) (by norm_num)]
  norm_num

/-- `π` rounded to single precision is `13176795 / 2^22`, above `π`. -/
theorem F32.round_pi : F32.round Real.pi = 13176795 / 4194304 := by
  have hpos : |Real.pi| = Real.pi := abs_of_pos Real.pi_pos
  have hlo := Real.pi_gt_d20
  have hhi := Real.pi_lt_d20
  rw [F32.round_eq Real.pi 1 13176795 (by norm_num)
    (by rw [hpos]; norm_num; linarith) (by rw [hpos]; norm_num; linarith)
    (by norm_num at hlo ⊢; linarith) (by norm_num at hhi ⊢; linarith)]
  norm_num

/-- `π / 2` rounded to single precision is `13176795 / 2^23`. -/
theorem F32.round_pi_div_two : F32.round (Real.pi / 2) = 13176795 / 8388608 := by
  have hpos : |Real.pi / 2| = Real.pi / 2 := abs_of_pos (by positivity)
  have hlo := Real.pi_gt_d20
  have hhi := Real.pi_lt_d20
  rw [F32.round_eq (Real.pi / 2) 0 13176795 (by norm_num)
    (by rw [hpos]; norm_num; linarith) (by rw [hpos]; norm_num; linarith)
    (by norm_num at hlo ⊢; linarith) (by norm_num at hhi ⊢; linarith)]
  norm_num

/-- `√3` rounded to single precision is `14529495 / 2^23`. -/
theorem F32.round_sqrt_three : F32.round (Real.sqrt 3) = 14529495 / 8388608 := by
  have hpos : |Real.sqrt 3| = Real.sqrt 3 := abs_of_nonneg (Real.sqrt_nonneg 3)
  have h1 : (1 : ℝ) ≤ Real.sqrt 3 := by
    rw [Real.le_sqrt' (by norm_num : (0 : ℝ) < 1)]
    norm_num
  have h2 : Real.sqrt 3 < 2 := by
    rw [Real.sqrt_lt' (by norm_num)]
    norm_num
  rw [F32.round_eq (Real.sqrt 3) 0 14529495 (by norm_num)
    (by rw [hpos]; simp) (by rw [hpos]; simpa using h2)
    (by rw [Real.lt_sqrt (by norm_num)]; norm_num)
    (by rw [Real.sqrt_lt' (by norm_num)]; norm_num)]
  norm_num

/-! ## Vector visualizer: the draw-data builder -/

/-- In exact arithmetic the vector builder stores `origin + endPoint` componentwise as
`endPoint`, the attribute `endPoint` itself as `vectorPoint`, and the Euclidean length of
`endPoint` as `magnitude`; for origin `(0,0,0)` and endPoint `(0,3,0)` it stores magnitude `3`,
world end point `(0,3,0)` and label position `(0,1.5,0)`. -/
theorem vector_builder_fields_exact (a : VectorAttributes) (oldData : Option DDrawVectorData)
    (fresh : DDrawVectorData) :
    (DDrawVectorDrawOverride.prepareForDraw a oldData fresh).endPoint
        = ⟨a.Origin.x + a.EndPoint.x, a.Origin.y + a.EndPoint.y, a.Origin.z + a.EndPoint.z⟩
      ∧ (DDrawVectorDrawOverride.prepareForDraw a oldData fresh).vectorPoint = a.EndPoint
      ∧ (DDrawVectorDrawOverride.prepareForDraw a oldData fresh).magnitude
        = Real.sqrt (a.EndPoint.x ^ 2 + a.EndPoint.y ^ 2 + a.EndPoint.z ^ 2)
      ∧ (DDrawVectorDrawOverride.prepareForDraw
          { a with Origin := ⟨0, 0, 0⟩, EndPoint := ⟨0, 3, 0⟩ } oldData fresh).magnitude = 3
      ∧ (DDrawVectorDrawOverride.prepareForDraw
          { a with Origin := ⟨0, 0, 0⟩, EndPoint := ⟨0, 3, 0⟩ } oldData fresh).endPoint
        = ⟨0, 3, 0⟩
      ∧ (DDrawVectorDrawOverride.prepareForDraw
          { a with Origin := ⟨0, 0, 0⟩, EndPoint := ⟨0, 3, 0⟩ } oldData fresh).magnitudeDrawPosition
        = ⟨0, 1.5, 0⟩ := by
  have h3 : (⟨0, 3, 0⟩ : MVector) ≠ MVector.zero := by
    intro h
    have := congrArg MVector.y h
    norm_num [MVector.zero] at this
  refine ⟨?_, rfl, ?_, ?_, ?_, ?_⟩
  · show a.EndPoint + a.Origin = _
    show MVector.add _ _ = _
    simp only [MVector.add, add_comm]
  · show a.EndPoint.length = _
    simp only [MVector.length, pow_two]
  · exact MVector.length_0_3_0
  · show (⟨0, 3, 0⟩ : MVector) + ⟨0, 0, 0⟩ = _
    show MVector.add _ _ = _
    simp [MVector.add]
  · show (⟨0, 0, 0⟩ : MVector)
        + (MVector.normal ⟨0, 3, 0⟩ * (MVector.length ⟨0, 3, 0⟩ / 2)) = _
    rw [MVector.normal_of_ne h3, MVector.length_0_3_0]
    show MVector.add _ (MVector.scale _ _) = _
    simp only [MVector.add, MVector.scale]
    norm_num

/-- The record the vector builder makes with its single-precision steps, when the rounded
length is finite. -/
theorem vector_builder_f32_eq (a : VectorAttributes) (oldData : Option DDrawVectorData)
    (fresh : DDrawVectorData) (h : |F32.round a.EndPoint.length| ≤ F32.maxFinite) :
    DDrawVectorDrawOverride.prepareForDrawF32 a oldData fresh
      = some
          { origin := a.Origin
            vectorPoint := a.EndPoint
            endPoint := a.EndPoint + a.Origin
            magnitude := F32.round a.EndPoint.length
            magnitudeDrawPosition :=
              a.Origin + (a.EndPoint.normal * F32.round (F32.round a.EndPoint.length / 2))
            vectorColor := a.VectorColor
            textColor := a.TextColor
            coneRadius := a.ConeRadius
            coneHeight := a.ConeHeight
            displayText := a.DisplayText
            status := a.status } := by
  have hc1 : castF32 a.EndPoint.length = some (F32.round a.EndPoint.length) :=
    castF32_of_round_le _ h
  have hhalf : |F32.round a.EndPoint.length / 2| ≤ F32.maxFinite := by
    rw [abs_div, abs_two]
    have := abs_nonneg (F32.round a.EndPoint.length)
    linarith
  have hc2 : castF32 (F32.round a.EndPoint.length / 2)
      = some (F32.round (F32.round a.EndPoint.length / 2)) :=
    castF32_of_abs_le _ hhalf
  simp only [DDrawVectorDrawOverride.prepareForDrawF32, hc1, hc2]

/-- When the rounded length is beyond `FLT_MAX` the vector builder's record holds an infinity,
which this embedding leaves out. -/
theorem vector_builder_f32_overflow (a : VectorAttributes) (oldData : Option DDrawVectorData)
    (fresh : DDrawVectorData) (h : ¬ |F32.round a.EndPoint.length| ≤ F32.maxFinite) :
    DDrawVectorDrawOverride.prepareForDrawF32 a oldData fresh = none := by
  have hc1 : castF32 a.EndPoint.length = none := by
    unfold castF32
    rw [if_neg h]
  simp only [DDrawVectorDrawOverride.prepareForDrawF32, hc1]

/-- The length of `(1, 1, 1)` is `√3`. -/
theorem MVector.length_1_1_1 : (⟨1, 1, 1⟩ : MVector).length = Real.sqrt 3 := by
  unfold MVector.length
  norm_num

/-- C1 (as stated, refuted): for end point `(1, 1, 1)` the stored magnitude is the
single-precision number `14529495 / 2^23`, not the Euclidean length `√3` of the end point. -/
theorem C1_magnitude_counterexample :
    ∃ d, DDrawVectorDrawOverride.prepareForDrawF32
          { exampleVectorAttributes with EndPoint := ⟨1, 1, 1⟩ } none exampleVectorData = some d
      ∧ d.magnitude = 14529495 / 8388608
      ∧ d.magnitude ≠ Real.sqrt ((1 : ℝ) ^ 2 + 1 ^ 2 + 1 ^ 2) := by
  have hr : F32.round (MVector.length ⟨1, 1, 1⟩) = 14529495 / 8388608 := by
    rw [MVector.length_1_1_1, F32.round_sqrt_three]
  have hfin : |F32.round (MVector.length ⟨1, 1, 1⟩)| ≤ F32.maxFinite := by
    rw [hr, abs_of_pos (by norm_num)]
    unfold F32.maxFinite
    norm_num
  refine ⟨_, vector_builder_f32_eq { exampleVectorAttributes with EndPoint := ⟨1, 1, 1⟩ } none
    exampleVectorData hfin, hr, ?_⟩
  show F32.round (MVector.length ⟨1, 1, 1⟩) ≠ _
  rw [hr]
  intro h
  have h3 : Real.sqrt ((1 : ℝ) ^ 2 + 1 ^ 2 + 1 ^ 2) ^ 2 = (1 : ℝ) ^ 2 + 1 ^ 2 + 1 ^ 2 :=
    Real.sq_sqrt (by norm_num)
  rw [← h] at h3
  norm_num at h3

/-- C1 (amended): whenever the rounded length of `endPoint` is a finite single-precision
number, the vector builder stores `origin + endPoint` componentwise as `endPoint`, the attribute
`endPoint` itself as `vectorPoint`, and as `magnitude` the Euclidean length of `endPoint` rounded
to single precision, at most half a spacing away from the length; for origin `(0,0,0)` and
endPoint `(0,3,0)` it stores magnitude `3`, world end point `(0,3,0)` and label position
`(0,1.5,0)`. -/
theorem C1_vector_builder_fields_f32 (a : VectorAttributes) (oldData : Option DDrawVectorData)
    (fresh : DDrawVectorData) (h : |F32.round a.EndPoint.length| ≤ F32.maxFinite) :
    (∃ d, DDrawVectorDrawOverride.prepareForDrawF32 a oldData fresh = some d
        ∧ d.endPoint
          = ⟨a.Origin.x + a.EndPoint.x, a.Origin.y + a.EndPoint.y, a.Origin.z + a.EndPoint.z⟩
        ∧ d.vectorPoint = a.EndPoint
        ∧ d.magnitude
          = F32.round (Real.sqrt (a.EndPoint.x ^ 2 + a.EndPoint.y ^ 2 + a.EndPoint.z ^ 2))
        ∧ |d.magnitude - Real.sqrt (a.EndPoint.x ^ 2 + a.EndPoint.y ^ 2 + a.EndPoint.z ^ 2)|
          ≤ F32.ulp (Real.sqrt (a.EndPoint.x ^ 2 + a.EndPoint.y ^ 2 + a.EndPoint.z ^ 2)) / 2)
      ∧ ∃ d, DDrawVectorDrawOverride.prepareForDrawF32
            { a with Origin := ⟨0, 0, 0⟩, EndPoint := ⟨0, 3, 0⟩ } oldData fresh = some d
          ∧ d.magnitude = 3
          ∧ d.endPoint = ⟨0, 3, 0⟩
          ∧ d.magnitudeDrawPosition = ⟨0, 1.5, 0⟩ := by
  have hlen : a.EndPoint.length
      = Real.sqrt (a.EndPoint.x ^ 2 + a.EndPoint.y ^ 2 + a.EndPoint.z ^ 2) := by
    simp only [MVector.length, pow_two]
  have h3 : (⟨0, 3, 0⟩ : MVector) ≠ MVector.zero := by
    intro h0
    have := congrArg MVector.y h0
    norm_num [MVector.zero] at this
  have hfin3 : |F32.round (MVector.length ⟨0, 3, 0⟩)| ≤ F32.maxFinite := by
    rw [MVector.length_0_3_0, F32.round_three.1]
    unfold F32.maxFinite
    norm_num
  refine ⟨⟨_, vector_builder_f32_eq a oldData fresh h, ?_, rfl, ?_, ?_⟩,
    ⟨_, vector_builder_f32_eq { a with Origin := ⟨0, 0, 0⟩, EndPoint := ⟨0, 3, 0⟩ } oldData
      fresh hfin3, ?_, ?_, ?_⟩⟩
  · show a.EndPoint + a.Origin = _
    show MVector.add _ _ = _
    simp only [MVector.add, add_comm]
  · show F32.round a.EndPoint.length = _
    rw [hlen]
  · show |F32.round a.EndPoint.length - _| ≤ _
    rw [← hlen]
    exact F32.abs_round_sub_le _
  · show F32.round (MVector.length ⟨0, 3, 0⟩) = 3
    rw [MVector.length_0_3_0, F32.round_three.1]
  · show (⟨0, 3, 0⟩ : MVector) + ⟨0, 0, 0⟩ = _
    show MVector.add _ _ = _
    simp [MVector.add]
  · show (⟨0, 0, 0⟩ : MVector)
        + (MVector.normal ⟨0, 3, 0⟩ * F32.round (F32.round (MVector.length ⟨0, 3, 0⟩) / 2)) = _
    rw [MVector.normal_of_ne h3, MVector.length_0_3_0, F32.round_three.1, F32.round_three.2]
    show MVector.add _ (MVector.scale _ _) = _
    simp only [MVector.add, MVector.scale]
    norm_num

/-- C1 (amended) at origin `(1, 2, 3)` and end point `(0, 3, 0)`, whose length `3` is a
single-precision number: the record is made and holds the end point as `vectorPoint`. -/
theorem C1_vector_builder_fields_f32_witness :
    |F32.round exampleVectorAttributes.EndPoint.length| ≤ F32.maxFinite
      ∧ ∃ d, DDrawVectorDrawOverride.prepareForDrawF32 exampleVectorAttributes none
            exampleVectorData = some d
          ∧ d.vectorPoint = ⟨0, 3, 0⟩ := by
  have hfin : |F32.round exampleVectorAttributes.EndPoint.length| ≤ F32.maxFinite := by
    show |F32.round (MVector.length ⟨0, 3, 0⟩)| ≤ F32.maxFinite
    rw [MVector.length_0_3_0, F32.round_three.1]
    unfold F32.maxFinite
    norm_num
  obtain ⟨⟨d, hd, _, hv, _, _⟩, _⟩ :=
    C1_vector_builder_fields_f32 exampleVectorAttributes none exampleVectorData hfin
  exact ⟨hfin, d, hd, hv⟩

/-- C2: for a non-zero `endPoint` the label position `origin + Normalize(endPoint) *
(|endPoint| / 2)` is `origin + endPoint / 2`, the midpoint of the segment from the stored origin
to the stored world end point. -/
theorem C2_vector_label_midpoint (a : VectorAttributes) (oldData : Option DDrawVectorData)
    (fresh : DDrawVectorData) (h : a.EndPoint ≠ MVector.zero) :
    (DDrawVectorDrawOverride.prepareForDraw a oldData fresh).magnitudeDrawPosition
        = a.Origin + (a.EndPoint.normal * (a.EndPoint.length / 2))
      ∧ (DDrawVectorDrawOverride.prepareForDraw a oldData fresh).magnitudeDrawPosition
        = ⟨a.Origin.x + a.EndPoint.x / 2, a.Origin.y + a.EndPoint.y / 2,
            a.Origin.z + a.EndPoint.z / 2⟩
      ∧ (DDrawVectorDrawOverride.prepareForDraw a oldData fresh).magnitudeDrawPosition
        = ⟨((DDrawVectorDrawOverride.prepareForDraw a oldData fresh).origin.x
              + (DDrawVectorDrawOverride.prepareForDraw a oldData fresh).endPoint.x) / 2,
            ((DDrawVectorDrawOverride.prepareForDraw a oldData fresh).origin.y
              + (DDrawVectorDrawOverride.prepareForDraw a oldData fresh).endPoint.y) / 2,
            ((DDrawVectorDrawOverride.prepareForDraw a oldData fresh).origin.z
              + (DDrawVectorDrawOverride.prepareForDraw a oldData fresh).endPoint.z) / 2⟩ := by
  have hpos : 0 < a.EndPoint.length := MVector.length_pos_of_ne h
  have hne : a.EndPoint.length ≠ 0 := ne_of_gt hpos
  have key : a.Origin + (a.EndPoint.normal * (a.EndPoint.length / 2))
      = ⟨a.Origin.x + a.EndPoint.x / 2, a.Origin.y + a.EndPoint.y / 2,
          a.Origin.z + a.EndPoint.z / 2⟩ := by
    rw [MVector.normal_of_ne h]
    show MVector.add _ (MVector.scale _ _) = _
    simp only [MVector.add, MVector.scale]
    ext
    · show a.Origin.x + a.EndPoint.x / a.EndPoint.length * (a.EndPoint.length / 2) = _
      field_simp
    · show a.Origin.y + a.EndPoint.y / a.EndPoint.length * (a.EndPoint.length / 2) = _
      field_simp
    · show a.Origin.z + a.EndPoint.z / a.EndPoint.length * (a.EndPoint.length / 2) = _
      field_simp
  refine ⟨rfl, key, ?_⟩
  show a.Origin + (a.EndPoint.normal * (a.EndPoint.length / 2))
      = ⟨(a.Origin.x + (a.EndPoint + a.Origin).x) / 2, (a.Origin.y + (a.EndPoint + a.Origin).y) / 2,
          (a.Origin.z + (a.EndPoint + a.Origin).z) / 2⟩
  rw [key]
  show _ = (⟨(a.Origin.x + (MVector.add a.EndPoint a.Origin).x) / 2,
      (a.Origin.y + (MVector.add a.EndPoint a.Origin).y) / 2,
      (a.Origin.z + (MVector.add a.EndPoint a.Origin).z) / 2⟩ : MVector)
  simp only [MVector.add]
  ext
  · show a.Origin.x + a.EndPoint.x / 2 = (a.Origin.x + (a.EndPoint.x + a.Origin.x)) / 2
    ring
  · show a.Origin.y + a.EndPoint.y / 2 = (a.Origin.y + (a.EndPoint.y + a.Origin.y)) / 2
    ring
  · show a.Origin.z + a.EndPoint.z / 2 = (a.Origin.z + (a.EndPoint.z + a.Origin.z)) / 2
    ring

/-- C2 at origin `(1, 2, 3)` and end point `(0, 3, 0)`: the label sits at
`(1 + 0/2, 2 + 3/2, 3 + 0/2)`. -/
theorem C2_vector_label_midpoint_witness :
    exampleVectorAttributes.EndPoint ≠ MVector.zero
      ∧ (DDrawVectorDrawOverride.prepareForDraw exampleVectorAttributes none
          exampleVectorData).magnitudeDrawPosition
        = ⟨1 + 0 / 2, 2 + 3 / 2, 3 + 0 / 2⟩ := by
  have h : exampleVectorAttributes.EndPoint ≠ MVector.zero := by
    intro h
    have := congrArg MVector.y h
    norm_num [exampleVectorAttributes, MVector.zero] at this
  exact ⟨h, (C2_vector_label_midpoint exampleVectorAttributes none exampleVectorData h).2.1⟩

/-- C10: with `endPoint = (0,0,0)` the vector builder stores magnitude `0`, its direction
`Normalize(endPoint)` is the zero vector, and both the world end point and the label position
are the origin. -/
theorem C10_vector_zero_endpoint (a : VectorAttributes) (oldData : Option DDrawVectorData)
    (fresh : DDrawVectorData) :
    (DDrawVectorDrawOverride.prepareForDraw
        { a with EndPoint := ⟨0, 0, 0⟩ } oldData fresh).magnitude = 0
      ∧ prepareForDrawDirection { a with EndPoint := ⟨0, 0, 0⟩ } = ⟨0, 0, 0⟩
      ∧ (DDrawVectorDrawOverride.prepareForDraw
          { a with EndPoint := ⟨0, 0, 0⟩ } oldData fresh).endPoint = a.Origin
      ∧ (DDrawVectorDrawOverride.prepareForDraw
          { a with EndPoint := ⟨0, 0, 0⟩ } oldData fresh).magnitudeDrawPosition = a.Origin := by
  have hl : MVector.length ⟨0, 0, 0⟩ = 0 := (MVector.length_eq_zero_iff _).2 rfl
  have hn : MVector.normal ⟨0, 0, 0⟩ = ⟨0, 0, 0⟩ := MVector.normal_zero
  refine ⟨hl, hn, ?_, ?_⟩
  · show MVector.add ⟨0, 0, 0⟩ a.Origin = a.Origin
    simp [MVector.add]
  · show MVector.add a.Origin (MVector.scale (MVector.normal ⟨0, 0, 0⟩)
        (MVector.length ⟨0, 0, 0⟩ / 2)) = a.Origin
    rw [hn, hl]
    simp [MVector.add, MVector.scale]

/-! ## Matrix visualizer: the draw-data builder -/

/-- C3: the matrix builder stores rows 0, 1, 2 and 3 of the matrix, first three columns each, as
`XAxis`, `YAxis`, `ZAxis` and `Position`; replacing the fourth column by any other leaves the
record unchanged; the identity matrix translated by `(5,0,0)` gives position `(5,0,0)` and the
unit axes. -/
theorem C3_matrix_builder_rows (a : MatrixAttributes) (oldData : Option DDrawMatrixData)
    (fresh : DDrawMatrixData) (col : Fin 4 → f64) :
    (DDrawMatrixDrawOverride.prepareForDraw a oldData fresh).XAxis
        = ⟨a.Matrix 0 0, a.Matrix 0 1, a.Matrix 0 2⟩
      ∧ (DDrawMatrixDrawOverride.prepareForDraw a oldData fresh).YAxis
        = ⟨a.Matrix 1 0, a.Matrix 1 1, a.Matrix 1 2⟩
      ∧ (DDrawMatrixDrawOverride.prepareForDraw a oldData fresh).ZAxis
        = ⟨a.Matrix 2 0, a.Matrix 2 1, a.Matrix 2 2⟩
      ∧ (DDrawMatrixDrawOverride.prepareForDraw a oldData fresh).Position
        = ⟨a.Matrix 3 0, a.Matrix 3 1, a.Matrix 3 2⟩
      ∧ DDrawMatrixDrawOverride.prepareForDraw
          { a with Matrix := withFourthColumn a.Matrix col } oldData fresh
        = DDrawMatrixDrawOverride.prepareForDraw a oldData fresh
      ∧ (DDrawMatrixDrawOverride.prepareForDraw
          { a with Matrix := identityTranslated5 } oldData fresh).Position = ⟨5, 0, 0⟩
      ∧ (DDrawMatrixDrawOverride.prepareForDraw
          { a with Matrix := identityTranslated5 } oldData fresh).XAxis = ⟨1, 0, 0⟩
      ∧ (DDrawMatrixDrawOverride.prepareForDraw
          { a with Matrix := identityTranslated5 } oldData fresh).YAxis = ⟨0, 1, 0⟩
      ∧ (DDrawMatrixDrawOverride.prepareForDraw
          { a with Matrix := identityTranslated5 } oldData fresh).ZAxis = ⟨0, 0, 1⟩ := by
  refine ⟨rfl, rfl, rfl, rfl, ?_, ?_, ?_, ?_, ?_⟩
  · have h : ∀ (i : Fin 4) (j : Fin 4), j ≠ 3 →
        withFourthColumn a.Matrix col i j = a.Matrix i j := by
      intro i j hj
      simp [withFourthColumn, hj]
    simp only [DDrawMatrixDrawOverride.prepareForDraw]
    rw [h 0 0 (by decide), h 0 1 (by decide), h 0 2 (by decide),
      h 1 0 (by decide), h 1 1 (by decide), h 1 2 (by decide),
      h 2 0 (by decide), h 2 1 (by decide), h 2 2 (by decide),
      h 3 0 (by decide), h 3 1 (by decide), h 3 2 (by decide)]
  all_goals
    simp [DDrawMatrixDrawOverride.prepareForDraw, identityTranslated5, Matrix.vecHead,
      Matrix.vecTail]

/-! ## Angle visualizer: the draw-data builder -/

/-- The vectors the angle builder stores: the attributes, normalized when the flag is set. -/
theorem angle_builder_vectors (a : AngleAttributes) (oldData : Option DDrawAngleData)
    (fresh : DDrawAngleData) :
    (DDrawAngleDrawOverride.prepareForDraw a oldData fresh).V1
        = (if a.Normalize then a.V1.normal else a.V1)
      ∧ (DDrawAngleDrawOverride.prepareForDraw a oldData fresh).V2
        = (if a.Normalize then a.V2.normal else a.V2) :=
  ⟨rfl, rfl⟩

/-- In exact arithmetic, for either value of the normalize flag, the stored radians lie in
`[0, π]`. -/
theorem angle_radians_range_exact (a : AngleAttributes) (oldData : Option DDrawAngleData)
    (fresh : DDrawAngleData) :
    0 ≤ (DDrawAngleDrawOverride.prepareForDraw a oldData fresh).radians
      ∧ (DDrawAngleDrawOverride.prepareForDraw a oldData fresh).radians ≤ Real.pi := by
  exact ⟨Real.arccos_nonneg _, Real.arccos_le_pi _⟩

/-- Cauchy-Schwarz for the host's dot product and length. -/
theorem MVector.abs_dot_le (a b : MVector) : |MVector.dot a b| ≤ a.length * b.length := by
  have hsq : MVector.dot a b ^ 2
      ≤ (a.x * a.x + a.y * a.y + a.z * a.z) * (b.x * b.x + b.y * b.y + b.z * b.z) := by
    simp only [MVector.dot]
    nlinarith [sq_nonneg (a.x * b.y - a.y * b.x), sq_nonneg (a.y * b.z - a.z * b.y),
      sq_nonneg (a.z * b.x - a.x * b.z)]
  have h := Real.abs_le_sqrt hsq
  rw [Real.sqrt_mul a.sq_sum_nonneg] at h
  exact h

/-- For non-zero vectors the host's angle is the angle in `[0, π]` whose cosine is the
normalized dot product. -/
theorem MVector.cos_angle {a b : MVector} (ha : a ≠ MVector.zero) (hb : b ≠ MVector.zero) :
    0 ≤ MVector.angle a b ∧ MVector.angle a b ≤ Real.pi
      ∧ Real.cos (MVector.angle a b) = MVector.dot a b / (a.length * b.length) := by
  have hpos : 0 < a.length * b.length :=
    mul_pos (MVector.length_pos_of_ne ha) (MVector.length_pos_of_ne hb)
  have habs := abs_le.1 (MVector.abs_dot_le a b)
  refine ⟨Real.arccos_nonneg _, Real.arccos_le_pi _, ?_⟩
  unfold MVector.angle
  apply Real.cos_arccos
  · rw [le_div_iff₀ hpos]
    linarith [habs.1]
  · rw [div_le_iff₀ hpos]
    linarith [habs.2]

/-- An angle in `[0, π]` rounds into `[0, 13176795 / 2^22]`, the rounding of `π`, and moves by
at most `2^-23`. -/
theorem F32.round_angle_bounds (θ : ℝ) (h0 : 0 ≤ θ) (hpi : θ ≤ Real.pi) :
    0 ≤ F32.round θ ∧ F32.round θ ≤ 13176795 / 4194304
      ∧ |F32.round θ - θ| ≤ 1 / 8388608 := by
  have hlt : |θ| < (2 : ℝ) ^ ((1 : ℤ) + 1) := by
    rw [abs_of_nonneg h0]
    have := Real.pi_lt_d20
    norm_num at this ⊢
    linarith
  have he : F32.exponent θ ≤ 1 := F32.exponent_le θ 1 (by norm_num) hlt
  have hj : F32.exponent θ - 23 ≤ -22 := by omega
  have hlo := F32.le_round_of_le θ 0 (-22) hj (by simpa using h0)
  have hup : θ ≤ ((13176795 : ℤ) : ℝ) * (2 : ℝ) ^ (-22 : ℤ) := by
    have := Real.pi_lt_d20
    norm_num at this ⊢
    linarith
  have hhi := F32.round_le_of_le θ 13176795 (-22) hj hup
  have hulp : F32.ulp θ ≤ 1 / 4194304 := by
    have h2 : F32.ulp θ ≤ (2 : ℝ) ^ (-22 : ℤ) := by
      unfold F32.ulp
      exact zpow_le_zpow_right₀ (by norm_num) hj
    norm_num at h2 ⊢
    exact h2
  have herr := F32.abs_round_sub_le θ
  refine ⟨by simpa using hlo, ?_, ?_⟩
  · norm_num at hhi ⊢
    exact hhi
  · linarith

/-- The record the angle builder makes with its single-precision steps; it is made for every
input. -/
theorem angle_builder_f32_eq (a : AngleAttributes) (oldData : Option DDrawAngleData)
    (fresh : DDrawAngleData) :
    DDrawAngleDrawOverride.prepareForDrawF32 a oldData fresh
      = some
          { V1 := if a.Normalize then a.V1.normal else a.V1
            V2 := if a.Normalize then a.V2.normal else a.V2
            origin := a.origin
            plane := MVector.cross (if a.Normalize then a.V1.normal else a.V1)
              (if a.Normalize then a.V2.normal else a.V2)
            radians := F32.round (MVector.angle (if a.Normalize then a.V1.normal else a.V1)
              (if a.Normalize then a.V2.normal else a.V2))
            degrees := F32.round
              (F32.round (MVector.angle (if a.Normalize then a.V1.normal else a.V1)
                (if a.Normalize then a.V2.normal else a.V2)) * F32.round 57.2957795)
            textColor := a.textColor } := by
  have hθ0 : 0 ≤ MVector.angle (if a.Normalize then a.V1.normal else a.V1)
      (if a.Normalize then a.V2.normal else a.V2) := Real.arccos_nonneg _
  have hθ1 : MVector.angle (if a.Normalize then a.V1.normal else a.V1)
      (if a.Normalize then a.V2.normal else a.V2) ≤ Real.pi := Real.arccos_le_pi _
  obtain ⟨hr0, hr1, _⟩ := F32.round_angle_bounds _ hθ0 hθ1
  have hc1 : castF32 (MVector.angle (if a.Normalize then a.V1.normal else a.V1)
      (if a.Normalize then a.V2.normal else a.V2))
      = some (F32.round (MVector.angle (if a.Normalize then a.V1.normal else a.V1)
          (if a.Normalize then a.V2.normal else a.V2))) := by
    apply castF32_of_round_le
    rw [abs_of_nonneg hr0]
    unfold F32.maxFinite
    norm_num
    linarith
  have hc2 : castF32 (F32.round (MVector.angle (if a.Normalize then a.V1.normal else a.V1)
      (if a.Normalize then a.V2.normal else a.V2)) * F32.round 57.2957795)
      = some (F32.round (F32.round (MVector.angle (if a.Normalize then a.V1.normal else a.V1)
          (if a.Normalize then a.V2.normal else a.V2)) * F32.round 57.2957795)) := by
    apply castF32_of_abs_le
    rw [F32.round_degrees_constant, abs_of_nonneg (mul_nonneg hr0 (by norm_num))]
    unfold F32.maxFinite
    norm_num
    nlinarith
  simp only [DDrawAngleDrawOverride.prepareForDrawF32, hc1, hc2]

/-- The length of `(-2, 0, 0)` is `2`, and of `(1, 0, 0)` and `(0, 1, 0)` is `1`. -/
theorem MVector.length_axis : (⟨-2, 0, 0⟩ : MVector).length = 2
    ∧ (⟨1, 0, 0⟩ : MVector).length = 1 ∧ (⟨0, 1, 0⟩ : MVector).length = 1 := by
  refine ⟨?_, ?_, ?_⟩
  · have h : (-2 : ℝ) * -2 + 0 * 0 + 0 * 0 = 2 * 2 := by norm_num
    unfold MVector.length
    simp only [h]
    exact Real.sqrt_mul_self (by norm_num)
  · simp [MVector.length]
  · simp [MVector.length]

/-- C4 (as stated, refuted): for the non-zero vectors `(1, 0, 0)` and `(-2, 0, 0)` the stored
radians are the single-precision number `13176795 / 2^22`, which is above `π`. -/
theorem C4_radians_above_pi_counterexample :
    ∃ d, DDrawAngleDrawOverride.prepareForDrawF32
          { exampleAngleAttributes with V1 := ⟨1, 0, 0⟩, V2 := ⟨-2, 0, 0⟩, Normalize := false }
          none exampleAngleData = some d
      ∧ d.radians = 13176795 / 4194304
      ∧ ¬ (d.radians ≤ Real.pi) := by
  have hang : MVector.angle ⟨1, 0, 0⟩ ⟨-2, 0, 0⟩ = Real.pi := by
    unfold MVector.angle
    rw [MVector.length_axis.1, MVector.length_axis.2.1]
    have h : MVector.dot ⟨1, 0, 0⟩ ⟨-2, 0, 0⟩ / (1 * 2) = -1 := by
      simp only [MVector.dot]
      norm_num
    rw [h, Real.arccos_neg_one]
  have hr : F32.round (MVector.angle ⟨1, 0, 0⟩ ⟨-2, 0, 0⟩) = 13176795 / 4194304 := by
    rw [hang, F32.round_pi]
  refine ⟨_, angle_builder_f32_eq _ none exampleAngleData, hr, ?_⟩
  show ¬ (F32.round (MVector.angle ⟨1, 0, 0⟩ ⟨-2, 0, 0⟩) ≤ Real.pi)
  rw [hr, not_le]
  have := Real.pi_lt_d20
  norm_num at this ⊢
  linarith

/-- C4 (amended): for non-zero `V1`, `V2` and either value of the normalize flag, the record is
made and its stored radians lie in `[0, 13176795 / 2^22]`, the upper end being `π` rounded to
single precision (about `3.14159274`, above `π`); they are the rounding of the angle of the
stored vectors, which lies in `[0, π]`, has the normalized dot product as cosine, and is at most
`2^-23` away. -/
theorem C4_angle_radians_range_f32 (a : AngleAttributes) (oldData : Option DDrawAngleData)
    (fresh : DDrawAngleData) (h1 : a.V1 ≠ MVector.zero) (h2 : a.V2 ≠ MVector.zero) :
    ∃ d, DDrawAngleDrawOverride.prepareForDrawF32 a oldData fresh = some d
      ∧ 0 ≤ d.radians
      ∧ d.radians ≤ 13176795 / 4194304
      ∧ d.radians = F32.round (MVector.angle d.V1 d.V2)
      ∧ |d.radians - MVector.angle d.V1 d.V2| ≤ 1 / 8388608
      ∧ 0 ≤ MVector.angle d.V1 d.V2
      ∧ MVector.angle d.V1 d.V2 ≤ Real.pi
      ∧ Real.cos (MVector.angle d.V1 d.V2) = MVector.dot d.V1 d.V2 / (d.V1.length * d.V2.length)
      ∧ (13176795 / 4194304 : ℝ) = F32.round Real.pi := by
  have hb1 : (if a.Normalize then a.V1.normal else a.V1) ≠ MVector.zero := by
    by_cases hn : a.Normalize
    · simpa [hn] using MVector.normal_ne_zero h1
    · simpa [hn] using h1
  have hb2 : (if a.Normalize then a.V2.normal else a.V2) ≠ MVector.zero := by
    by_cases hn : a.Normalize
    · simpa [hn] using MVector.normal_ne_zero h2
    · simpa [hn] using h2
  obtain ⟨hθ0, hθ1, hcos⟩ := MVector.cos_angle hb1 hb2
  obtain ⟨hr0, hr1, herr⟩ := F32.round_angle_bounds _ hθ0 hθ1
  exact ⟨_, angle_builder_f32_eq a oldData fresh, hr0, hr1, rfl, herr, hθ0, hθ1, hcos,
    F32.round_pi.symm⟩

/-- C4 (amended) at `V1 = (1,0,0)`, `V2 = (0,1,0)`, normalize on: the record is made and its
radians lie in `[0, 13176795 / 2^22]`. -/
theorem C4_angle_radians_range_f32_witness :
    ∃ d, DDrawAngleDrawOverride.prepareForDrawF32 exampleAngleAttributes none exampleAngleData
          = some d
      ∧ 0 ≤ d.radians
      ∧ d.radians ≤ 13176795 / 4194304 := by
  obtain ⟨d, hd, h0, h1, _⟩ :=
    C4_angle_radians_range_f32 exampleAngleAttributes none exampleAngleData
      (by
        intro h
        have := congrArg MVector.x h
        norm_num [exampleAngleAttributes, MVector.zero] at this)
      (by
        intro h
        have := congrArg MVector.y h
        norm_num [exampleAngleAttributes, MVector.zero] at this)
  exact ⟨d, hd, h0, h1⟩

/-- C5: for non-zero `V1`, `V2` and a fixed normalize flag, building with the two vectors
exchanged stores the same radians and the same degrees. -/
theorem C5_angle_symmetric (a : AngleAttributes) (oldData : Option DDrawAngleData)
    (fresh : DDrawAngleData) (_h1 : a.V1 ≠ MVector.zero) (_h2 : a.V2 ≠ MVector.zero) :
    (DDrawAngleDrawOverride.prepareForDraw { a with V1 := a.V2, V2 := a.V1 } oldData
          fresh).radians
        = (DDrawAngleDrawOverride.prepareForDraw a oldData fresh).radians
      ∧ (DDrawAngleDrawOverride.prepareForDraw { a with V1 := a.V2, V2 := a.V1 } oldData
          fresh).degrees
        = (DDrawAngleDrawOverride.prepareForDraw a oldData fresh).degrees := by
  have hr : (DDrawAngleDrawOverride.prepareForDraw { a with V1 := a.V2, V2 := a.V1 } oldData
        fresh).radians = (DDrawAngleDrawOverride.prepareForDraw a oldData fresh).radians :=
    MVector.angle_comm _ _
  refine ⟨hr, ?_⟩
  show (DDrawAngleDrawOverride.prepareForDraw { a with V1 := a.V2, V2 := a.V1 } oldData
        fresh).radians * 57.2957795
      = (DDrawAngleDrawOverride.prepareForDraw a oldData fresh).radians * 57.2957795
  rw [hr]

/-- C5 at `V1 = (1,0,0)`, `V2 = (0,1,0)`, normalize on: exchanging them keeps the radians. -/
theorem C5_angle_symmetric_witness :
    (DDrawAngleDrawOverride.prepareForDraw
          { exampleAngleAttributes with V1 := ⟨0, 1, 0⟩, V2 := ⟨1, 0, 0⟩ } none
          exampleAngleData).radians
      = (DDrawAngleDrawOverride.prepareForDraw exampleAngleAttributes none
          exampleAngleData).radians :=
  (C5_angle_symmetric exampleAngleAttributes none exampleAngleData
    (by
      intro h
      have := congrArg MVector.x h
      norm_num [exampleAngleAttributes, MVector.zero] at this)
    (by
      intro h
      have := congrArg MVector.y h
      norm_num [exampleAngleAttributes, MVector.zero] at this)).1

/-- C8: the stored plane is the cross product of the stored (possibly normalized) vectors, and
building with the two vectors exchanged stores its componentwise negation. -/
theorem C8_angle_plane_anticommutative (a : AngleAttributes) (oldData : Option DDrawAngleData)
    (fresh : DDrawAngleData) :
    (DDrawAngleDrawOverride.prepareForDraw a oldData fresh).plane
        = MVector.cross (if a.Normalize then a.V1.normal else a.V1)
            (if a.Normalize then a.V2.normal else a.V2)
      ∧ (DDrawAngleDrawOverride.prepareForDraw { a with V1 := a.V2, V2 := a.V1 } oldData
          fresh).plane
        = ⟨-(DDrawAngleDrawOverride.prepareForDraw a oldData fresh).plane.x,
            -(DDrawAngleDrawOverride.prepareForDraw a oldData fresh).plane.y,
            -(DDrawAngleDrawOverride.prepareForDraw a oldData fresh).plane.z⟩ :=
  ⟨rfl, MVector.cross_anticomm _ _⟩

/-- C6: for a non-zero vector `v` and either normalize setting, building with `V1 = V2 = v`
stores radians `0`, degrees `0` and plane `(0,0,0)`; at any tolerance below `90` the right-angle
test fails and the emitter issues no `lineList`. -/
theorem C6_angle_identical_vectors (a : AngleAttributes) (oldData : Option DDrawAngleData)
    (fresh : DDrawAngleData) (v : MVector) (tolerance : f64) (hv : v ≠ MVector.zero)
    (htol : tolerance < 90) :
    (DDrawAngleDrawOverride.prepareForDraw { a with V1 := v, V2 := v } oldData fresh).radians = 0
      ∧ (DDrawAngleDrawOverride.prepareForDraw { a with V1 := v, V2 := v } oldData
          fresh).degrees = 0
      ∧ (DDrawAngleDrawOverride.prepareForDraw { a with V1 := v, V2 := v } oldData
          fresh).plane = ⟨0, 0, 0⟩
      ∧ ¬ rightAngleTick tolerance
          (DDrawAngleDrawOverride.prepareForDraw { a with V1 := v, V2 := v } oldData fresh)
      ∧ ∀ c ∈ DDrawAngleDrawOverride.addUIDrawables tolerance
          (some (DDrawAngleDrawOverride.prepareForDraw { a with V1 := v, V2 := v } oldData
            fresh)),
          c.isLineList = false := by
  have hb : (if a.Normalize then v.normal else v) ≠ MVector.zero := by
    by_cases hn : a.Normalize
    · simpa [hn] using MVector.normal_ne_zero hv
    · simpa [hn] using hv
  have hr : (DDrawAngleDrawOverride.prepareForDraw { a with V1 := v, V2 := v } oldData
        fresh).radians = 0 := MVector.angle_self hb
  have hd : (DDrawAngleDrawOverride.prepareForDraw { a with V1 := v, V2 := v } oldData
        fresh).degrees = 0 := by
    show (DDrawAngleDrawOverride.prepareForDraw { a with V1 := v, V2 := v } oldData
        fresh).radians * 57.2957795 = 0
    rw [hr, zero_mul]
  have ht : ¬ rightAngleTick tolerance
      (DDrawAngleDrawOverride.prepareForDraw { a with V1 := v, V2 := v } oldData fresh) := by
    intro h
    have hx := h.1
    rw [hd] at hx
    have h90 : |(0 : ℝ) - 90| = 90 := by norm_num
    rw [h90] at hx
    exact absurd htol (not_lt.2 hx)
  refine ⟨hr, hd, MVector.cross_self _, ht, ?_⟩
  intro c hc
  simp only [DDrawAngleDrawOverride.addUIDrawables, DrawVector, if_neg ht, List.append_nil,
    List.mem_append, List.mem_cons, List.mem_singleton, List.not_mem_nil, or_false] at hc
  rcases hc with ((((h | h | h | h | h | h) | (h | h | h | h | h | h)) | (h | h | h))
    | (h | h | h)) <;> subst h <;> rfl

/-- C6 at `V1 = V2 = (1,0,0)` and the host's default tolerance: radians `0`, degrees `0`, plane
`(0,0,0)`, no tick. -/
theorem C6_angle_identical_vectors_witness :
    (DDrawAngleDrawOverride.prepareForDraw exampleSameAngleAttributes none
          exampleAngleData).radians = 0
      ∧ (DDrawAngleDrawOverride.prepareForDraw exampleSameAngleAttributes none
          exampleAngleData).degrees = 0
      ∧ (DDrawAngleDrawOverride.prepareForDraw exampleSameAngleAttributes none
          exampleAngleData).plane = ⟨0, 0, 0⟩
      ∧ ¬ rightAngleTick MVector_kTol
          (DDrawAngleDrawOverride.prepareForDraw exampleSameAngleAttributes none
            exampleAngleData)
      ∧ ∀ c ∈ DDrawAngleDrawOverride.addUIDrawables MVector_kTol
          (some (DDrawAngleDrawOverride.prepareForDraw exampleSameAngleAttributes none
            exampleAngleData)),
          c.isLineList = false :=
  C6_angle_identical_vectors exampleSameAngleAttributes none exampleAngleData ⟨1, 0, 0⟩
    MVector_kTol
    (by
      intro h
      have := congrArg MVector.x h
      norm_num [MVector.zero] at this)
    (by norm_num [MVector_kTol])

/-! ## Attribute extraction -/

/-- In exact arithmetic `V1 = (1,0,0)`, `V2 = (0,1,0)`, normalize on, gives radians `π / 2` and
degrees `π / 2 * 57.2957795`, which is below `90` by less than `10⁻⁷` and by more than `10⁻⁸`:
that the stored `f32` degrees are exactly `90` is the work of the single-precision rounding. -/
theorem right_angle_exact :
    (DDrawAngleDrawOverride.prepareForDraw exampleAngleAttributes none
          exampleAngleData).radians = Real.pi / 2
      ∧ (DDrawAngleDrawOverride.prepareForDraw exampleAngleAttributes none
          exampleAngleData).degrees = Real.pi / 2 * 57.2957795
      ∧ 90 - 1 / 10 ^ 7 < Real.pi / 2 * 57.2957795
      ∧ Real.pi / 2 * 57.2957795 < 90 - 1 / 10 ^ 8 := by
  have hl1 : MVector.length ⟨1, 0, 0⟩ = 1 := by
    simp [MVector.length]
  have hl2 : MVector.length ⟨0, 1, 0⟩ = 1 := by
    simp [MVector.length]
  have hn1 : MVector.normal ⟨1, 0, 0⟩ = ⟨1, 0, 0⟩ := by
    simp [MVector.normal, hl1]
  have hn2 : MVector.normal ⟨0, 1, 0⟩ = ⟨0, 1, 0⟩ := by
    simp [MVector.normal, hl2]
  have hr : (DDrawAngleDrawOverride.prepareForDraw exampleAngleAttributes none
        exampleAngleData).radians = Real.pi / 2 := by
    show MVector.angle (MVector.normal ⟨1, 0, 0⟩) (MVector.normal ⟨0, 1, 0⟩) = Real.pi / 2
    rw [hn1, hn2]
    simp [MVector.angle, MVector.dot]
  refine ⟨hr, ?_, ?_, ?_⟩
  · show (DDrawAngleDrawOverride.prepareForDraw exampleAngleAttributes none
        exampleAngleData).radians * 57.2957795 = _
    rw [hr]
  · have := Real.pi_gt_d20
    norm_num at this ⊢
    linarith
  · have := Real.pi_lt_d20
    norm_num at this ⊢
    linarith

/-! ## Wholesale replacement of the cached record -/

/-- C15: each of the three builders overwrites every field of the record: for the same
attributes (and display status, for the vector builder) the refreshed record is the same
whatever record was cached before, or none, and whatever a new record held. -/
theorem C15_builders_replace_wholesale (va : VectorAttributes) (aa : AngleAttributes)
    (ma : MatrixAttributes)
    (vOld vOld2 : Option DDrawVectorData) (vFresh vFresh2 : DDrawVectorData)
    (aOld aOld2 : Option DDrawAngleData) (aFresh aFresh2 : DDrawAngleData)
    (mOld mOld2 : Option DDrawMatrixData) (mFresh mFresh2 : DDrawMatrixData) :
    DDrawVectorDrawOverride.prepareForDraw va vOld vFresh
        = DDrawVectorDrawOverride.prepareForDraw va vOld2 vFresh2
      ∧ DDrawAngleDrawOverride.prepareForDraw aa aOld aFresh
        = DDrawAngleDrawOverride.prepareForDraw aa aOld2 aFresh2
      ∧ DDrawMatrixDrawOverride.prepareForDraw ma mOld mFresh
        = DDrawMatrixDrawOverride.prepareForDraw ma mOld2 mFresh2 :=
  ⟨rfl, rfl, rfl⟩

/-! ## Angle visualizer: the primitive emitter -/

/-- The code's `Mult`, "start with `|V2|`, replace by `|V1|` if `|V1| < |V2|`", is the minimum. -/
theorem mult_eq_min (p q : ℝ) : (if p < q then p else q) = min p q := by
  by_cases h : p < q
  · rw [if_pos h, min_eq_left (le_of_lt h)]
  · rw [if_neg h, min_eq_right (not_lt.1 h)]

/-- The arcs the angle emitter issues: exactly one, whatever the record holds. -/
theorem angle_emitter_arcs (d : DDrawAngleData) (tolerance : f64) :
    (DDrawAngleDrawOverride.addUIDrawables tolerance (some d)).filter DrawCall.isArc
      = [DrawCall.arc d.origin d.V1 d.V2 d.plane (min d.V1.length d.V2.length * 0.3)] := by
  by_cases h : rightAngleTick tolerance d
  · simp [DDrawAngleDrawOverride.addUIDrawables, DrawVector, List.filter, DrawCall.isArc, h,
      mult_eq_min]
  · simp [DDrawAngleDrawOverride.addUIDrawables, DrawVector, List.filter, DrawCall.isArc, h,
      mult_eq_min]

/-- C14: for every record the emitter issues exactly one arc: centred at `origin`, from `V1` to
`V2`, with normal `plane` and radius `min(|V1|, |V2|) * 0.3`; the code's choice of `Mult` is
that minimum, also when `|V1| = |V2|`. -/
theorem C14_angle_arc (d : DDrawAngleData) (tolerance : f64) :
    DrawCall.arc d.origin d.V1 d.V2 d.plane (min d.V1.length d.V2.length * 0.3)
        ∈ DDrawAngleDrawOverride.addUIDrawables tolerance (some d)
      ∧ (DDrawAngleDrawOverride.addUIDrawables tolerance (some d)).filter DrawCall.isArc
        = [DrawCall.arc d.origin d.V1 d.V2 d.plane (min d.V1.length d.V2.length * 0.3)]
      ∧ (if d.V1.length < d.V2.length then d.V1.length else d.V2.length)
        = min d.V1.length d.V2.length := by
  refine ⟨?_, angle_emitter_arcs d tolerance, mult_eq_min _ _⟩
  have h := angle_emitter_arcs d tolerance
  have hm : DrawCall.arc d.origin d.V1 d.V2 d.plane (min d.V1.length d.V2.length * 0.3)
      ∈ (DDrawAngleDrawOverride.addUIDrawables tolerance (some d)).filter DrawCall.isArc := by
    rw [h]
    exact List.mem_singleton.2 rfl
  exact (List.mem_filter.1 hm).1

/-- C11 (as stated, refuted): the record `exampleParallelData` has the zero plane, and the
emitted sequence does hold an arc call. -/
theorem C11_zero_plane_arc_counterexample :
    exampleParallelData.plane = MVector.zero
      ∧ ¬ (∀ c ∈ DDrawAngleDrawOverride.addUIDrawables MVector_kTol (some exampleParallelData),
            c.isArc = false) := by
  refine ⟨rfl, ?_⟩
  intro h
  have hf := angle_emitter_arcs exampleParallelData MVector_kTol
  have hnil : (DDrawAngleDrawOverride.addUIDrawables MVector_kTol
      (some exampleParallelData)).filter DrawCall.isArc = [] := by
    rw [List.filter_eq_nil_iff]
    intro c hc
    rw [h c hc]
    exact Bool.false_ne_true
  rw [hnil] at hf
  exact List.noConfusion hf

/-- C11 (amended): for a record whose plane is the zero vector the emitter makes no test of the
plane and still issues exactly one arc call, centred at `origin`, from `V1` to `V2`, with the
zero normal and radius `min(|V1|, |V2|) * 0.3`. -/
theorem C11_zero_plane_arc_emitted (d : DDrawAngleData) (tolerance : f64)
    (h : d.plane = MVector.zero) :
    (DDrawAngleDrawOverride.addUIDrawables tolerance (some d)).filter DrawCall.isArc
      = [DrawCall.arc d.origin d.V1 d.V2 ⟨0, 0, 0⟩ (min d.V1.length d.V2.length * 0.3)] := by
  have hf := angle_emitter_arcs d tolerance
  rw [h] at hf
  exact hf

/-- C11 (amended) at `exampleParallelData` and the host's default tolerance. -/
theorem C11_zero_plane_arc_emitted_witness :
    exampleParallelData.plane = MVector.zero
      ∧ (DDrawAngleDrawOverride.addUIDrawables MVector_kTol
          (some exampleParallelData)).filter DrawCall.isArc
        = [DrawCall.arc ⟨1, 2, 3⟩ ⟨1, 0, 0⟩ ⟨1, 0, 0⟩ ⟨0, 0, 0⟩
            (min (MVector.length ⟨1, 0, 0⟩) (MVector.length ⟨1, 0, 0⟩) * 0.3)] :=
  ⟨rfl, C11_zero_plane_arc_emitted exampleParallelData MVector_kTol rfl⟩

/-! ## The shared arrow routine and the vector emitter -/

/-- C16: for a non-zero `End`, `DrawVector` ends its line and bases its cone at `DrawPosition =
(|End| - ConeHeight) * Normalize(End) + Origin`, and the cone's apex `DrawPosition + ConeHeight *
Normalize(End)` is `Origin + End`, for every `ConeHeight`. -/
theorem C16_arrow_tip_on_endpoint (Origin End : MVector) (Color : MColor)
    (ConeHeight ConeRadius : f32) (h : End ≠ MVector.zero) :
    DrawVector Origin End Color ConeHeight ConeRadius
        = [ DrawCall.beginDrawable,
            DrawCall.setColor Color,
            DrawCall.setLineWidth 2,
            DrawCall.line Origin (((End.length - ConeHeight) * End.normal) + Origin),
            DrawCall.cone (((End.length - ConeHeight) * End.normal) + Origin) End.normal
              ConeRadius ConeHeight true,
            DrawCall.endDrawable ]
      ∧ (((End.length - ConeHeight) * End.normal) + Origin) + (ConeHeight * End.normal)
        = ⟨Origin.x + End.x, Origin.y + End.y, Origin.z + End.z⟩ := by
  refine ⟨rfl, ?_⟩
  have hne : End.length ≠ 0 := ne_of_gt (MVector.length_pos_of_ne h)
  rw [MVector.normal_of_ne h]
  show MVector.add (MVector.add (MVector.scale _ _) _) (MVector.scale _ _) = _
  simp only [MVector.add, MVector.scale]
  ext
  · show End.x / End.length * (End.length - ConeHeight) + Origin.x
        + End.x / End.length * ConeHeight = Origin.x + End.x
    field_simp
    ring
  · show End.y / End.length * (End.length - ConeHeight) + Origin.y
        + End.y / End.length * ConeHeight = Origin.y + End.y
    field_simp
    ring
  · show End.z / End.length * (End.length - ConeHeight) + Origin.z
        + End.z / End.length * ConeHeight = Origin.z + End.z
    field_simp
    ring

/-- C16 at `Origin = (1, 2, 3)`, `End = (0, 3, 0)` and a cone of height `5`, longer than the
vector: the apex is `(1 + 0, 2 + 3, 3 + 0)`. -/
theorem C16_arrow_tip_on_endpoint_witness :
    (((MVector.length ⟨0, 3, 0⟩ - 5) * MVector.normal ⟨0, 3, 0⟩) + (⟨1, 2, 3⟩ : MVector))
        + ((5 : ℝ) * MVector.normal ⟨0, 3, 0⟩)
      = ⟨1 + 0, 2 + 3, 3 + 0⟩ :=
  (C16_arrow_tip_on_endpoint ⟨1, 2, 3⟩ ⟨0, 3, 0⟩ (MColor.rgb 1 0 0) 5 1
    (by
      intro h
      have := congrArg MVector.y h
      norm_num [MVector.zero] at this)).2

/-- C13: the colours the vector emitter uses for the arrow and for the text are both white
`(1,1,1)` at status active, both teal `(0.26, 1.0, 0.64)` at status lead, and the record's own
`vectorColor` and `textColor` at any other status; they are the colours of the emitted
`setColor` calls, the arrow's first and the text's, when text is displayed, second. -/
theorem C13_vector_colour_override (d : DDrawVectorData) (s : DisplayStatus)
    (hActive : s ≠ DisplayStatus.kActive) (hLead : s ≠ DisplayStatus.kLead) :
    addUIDrawablesColors { d with status := DisplayStatus.kActive }
        = (⟨1, 1, 1, 1⟩, ⟨1, 1, 1, 1⟩)
      ∧ addUIDrawablesColors { d with status := DisplayStatus.kLead }
        = (⟨0.26, 1.0, 0.64, 1⟩, ⟨0.26, 1.0, 0.64, 1⟩)
      ∧ addUIDrawablesColors { d with status := s } = (d.vectorColor, d.textColor)
      ∧ setColors (DDrawVectorDrawOverride.addUIDrawables (some { d with displayText := true }))
        = [(addUIDrawablesColors d).1, (addUIDrawablesColors d).2]
      ∧ setColors (DDrawVectorDrawOverride.addUIDrawables (some { d with displayText := false }))
        = [(addUIDrawablesColors d).1] := by
  refine ⟨?_, ?_, ?_, ?_, ?_⟩
  · simp only [addUIDrawablesColors, MColor.rgb, if_true]
    norm_num
  · simp [addUIDrawablesColors, MColor.rgb]
  · simp [addUIDrawablesColors, hActive, hLead]
  · simp [DDrawVectorDrawOverride.addUIDrawables, DrawVector, setColors, addUIDrawablesColors]
  · simp [DDrawVectorDrawOverride.addUIDrawables, DrawVector, setColors, addUIDrawablesColors]

/-- C13 at status dormant: the record `exampleVectorData` keeps its own colours. -/
theorem C13_vector_colour_override_witness :
    addUIDrawablesColors { exampleVectorData with status := DisplayStatus.kDormant }
      = (exampleVectorData.vectorColor, exampleVectorData.textColor) :=
  (C13_vector_colour_override exampleVectorData DisplayStatus.kDormant
    (by decide) (by decide)).2.2.1

/-! ## The right-angle tick and the record's origin -/

/-- The right-angle test reads `degrees` only: it is the same for a record moved to another
origin. -/
theorem rightAngleTick_origin (d : DDrawAngleData) (tolerance : f64) (o : MVector) :
    rightAngleTick tolerance { d with origin := o } ↔ rightAngleTick tolerance d :=
  Iff.rfl

/-- C17: when the right-angle test holds, the emitter's one `lineList` has the points
`[p1, p1 + p2, p1 + p2, p2]` with `p_i = Normalize(V_i) * min(|V1|, |V2|) * 0.1`; a record that
differs only in its origin emits the same tick points, while its arrows start at, its arc is
centred at, and its label is placed at the new origin. -/
theorem C17_tick_ignores_origin (d : DDrawAngleData) (tolerance : f64) (o : MVector)
    (h : rightAngleTick tolerance d) :
    lineListPoints (DDrawAngleDrawOverride.addUIDrawables tolerance (some d))
        = [[ (d.V1.normal * min d.V1.length d.V2.length) * (0.1 : ℝ),
             (d.V1.normal * min d.V1.length d.V2.length) * (0.1 : ℝ)
               + (d.V2.normal * min d.V1.length d.V2.length) * (0.1 : ℝ),
             (d.V1.normal * min d.V1.length d.V2.length) * (0.1 : ℝ)
               + (d.V2.normal * min d.V1.length d.V2.length) * (0.1 : ℝ),
             (d.V2.normal * min d.V1.length d.V2.length) * (0.1 : ℝ) ]]
      ∧ lineListPoints
          (DDrawAngleDrawOverride.addUIDrawables tolerance (some { d with origin := o }))
        = lineListPoints (DDrawAngleDrawOverride.addUIDrawables tolerance (some d))
      ∧ DDrawAngleDrawOverride.addUIDrawables tolerance (some { d with origin := o })
        = DrawVector o d.V1 (MColor.rgb 1 0 0)
              DrawVector.defaultConeHeight DrawVector.defaultConeRadius
            ++ DrawVector o d.V2 (MColor.rgb 0 1 0)
              DrawVector.defaultConeHeight DrawVector.defaultConeRadius
            ++ [ DrawCall.beginDrawable,
                 DrawCall.setLineWidth 2,
                 DrawCall.arc o d.V1 d.V2 d.plane (min d.V1.length d.V2.length * 0.3),
                 DrawCall.lineList
                   [ (d.V1.normal * min d.V1.length d.V2.length) * (0.1 : ℝ),
                     (d.V1.normal * min d.V1.length d.V2.length) * (0.1 : ℝ)
                       + (d.V2.normal * min d.V1.length d.V2.length) * (0.1 : ℝ),
                     (d.V1.normal * min d.V1.length d.V2.length) * (0.1 : ℝ)
                       + (d.V2.normal * min d.V1.length d.V2.length) * (0.1 : ℝ),
                     (d.V2.normal * min d.V1.length d.V2.length) * (0.1 : ℝ) ] false,
                 DrawCall.setColor d.textColor,
                 DrawCall.text o ⟨"%.02fdeg|%.02frad", [d.degrees, d.radians]⟩
                   TextAlignment.kLeft,
                 DrawCall.endDrawable ] := by
  have ho : rightAngleTick tolerance { d with origin := o } :=
    (rightAngleTick_origin d tolerance o).2 h
  have h1 : lineListPoints (DDrawAngleDrawOverride.addUIDrawables tolerance (some d))
      = [[ (d.V1.normal * min d.V1.length d.V2.length) * (0.1 : ℝ),
           (d.V1.normal * min d.V1.length d.V2.length) * (0.1 : ℝ)
             + (d.V2.normal * min d.V1.length d.V2.length) * (0.1 : ℝ),
           (d.V1.normal * min d.V1.length d.V2.length) * (0.1 : ℝ)
             + (d.V2.normal * min d.V1.length d.V2.length) * (0.1 : ℝ),
           (d.V2.normal * min d.V1.length d.V2.length) * (0.1 : ℝ) ]] := by
    simp only [DDrawAngleDrawOverride.addUIDrawables, DrawVector, if_pos h, mult_eq_min,
      List.cons_append, List.nil_append, lineListPoints]
  have h2 : lineListPoints
      (DDrawAngleDrawOverride.addUIDrawables tolerance (some { d with origin := o }))
      = [[ (d.V1.normal * min d.V1.length d.V2.length) * (0.1 : ℝ),
           (d.V1.normal * min d.V1.length d.V2.length) * (0.1 : ℝ)
             + (d.V2.normal * min d.V1.length d.V2.length) * (0.1 : ℝ),
           (d.V1.normal * min d.V1.length d.V2.length) * (0.1 : ℝ)
             + (d.V2.normal * min d.V1.length d.V2.length) * (0.1 : ℝ),
           (d.V2.normal * min d.V1.length d.V2.length) * (0.1 : ℝ) ]] := by
    simp only [DDrawAngleDrawOverride.addUIDrawables, DrawVector, if_pos ho, mult_eq_min,
      List.cons_append, List.nil_append, lineListPoints]
  refine ⟨h1, h2.trans h1.symm, ?_⟩
  simp only [DDrawAngleDrawOverride.addUIDrawables, if_pos ho, mult_eq_min,
    List.cons_append, List.nil_append, List.append_assoc]

/-- C17 at `exampleRightAngleData` (degrees `90`) and the host's default tolerance: moved to the
origin `(0, 0, 0)`, the record emits the same tick points. -/
theorem C17_tick_ignores_origin_witness :
    rightAngleTick MVector_kTol exampleRightAngleData
      ∧ lineListPoints (DDrawAngleDrawOverride.addUIDrawables MVector_kTol
          (some { exampleRightAngleData with origin := ⟨0, 0, 0⟩ }))
        = lineListPoints (DDrawAngleDrawOverride.addUIDrawables MVector_kTol
          (some exampleRightAngleData)) := by
  have h : rightAngleTick MVector_kTol exampleRightAngleData := by
    simp only [rightAngleTick, MVector.isEquivalent, exampleRightAngleData, MVector_kTol]
    norm_num
  exact ⟨h, (C17_tick_ignores_origin exampleRightAngleData MVector_kTol ⟨0, 0, 0⟩ h).2.1⟩

/-! ## The right angle in single precision -/

/-- The single-precision product of the rounded `π / 2` and the constant `57.2957795f` is
exactly `90`. -/
theorem F32.round_right_angle_degrees :
    F32.round (13176795 / 8388608 * (15019745 / 262144)) = 90 := by
  have h : |(13176795 / 8388608 * (15019745 / 262144) : ℝ)|
      = 13176795 / 8388608 * (15019745 / 262144) := abs_of_pos (by norm_num)
  rw [F32.round_eq (13176795 / 8388608 * (15019745 / 262144)) 6 11796480 (by norm_num)
    (by rw [h]; norm_num) (by rw [h]; norm_num) (by norm_num) (by norm_num)]
  norm_num

/-- The unit vectors `(1,0,0)` and `(0,1,0)` are their own normalizations and are at the angle
`π / 2`. -/
theorem MVector.right_angle_axes :
    MVector.normal ⟨1, 0, 0⟩ = ⟨1, 0, 0⟩ ∧ MVector.normal ⟨0, 1, 0⟩ = ⟨0, 1, 0⟩
      ∧ MVector.angle ⟨1, 0, 0⟩ ⟨0, 1, 0⟩ = Real.pi / 2 := by
  refine ⟨?_, ?_, ?_⟩
  · simp [MVector.normal, MVector.length_axis.2.1]
  · simp [MVector.normal, MVector.length_axis.2.2]
  · simp [MVector.angle, MVector.dot]

/-- C7: for `V1 = (1,0,0)`, `V2 = (0,1,0)`, normalize on, the builder with its single-precision
steps stores radians `13176795 / 2^23`, the rounding of `π / 2`, within `10⁻⁵` of `1.5708`, and
degrees `radians * 57.2957795f` rounded, which is exactly `90`; the right-angle test holds at
the host's default tolerance and the emitter issues the tick `lineList`. -/
theorem C7_right_angle_tick (a : AngleAttributes) (oldData : Option DDrawAngleData)
    (fresh : DDrawAngleData) :
    ∃ d, DDrawAngleDrawOverride.prepareForDrawF32
          { a with V1 := ⟨1, 0, 0⟩, V2 := ⟨0, 1, 0⟩, Normalize := true } oldData fresh = some d
      ∧ d.radians = 13176795 / 8388608
      ∧ d.radians = F32.round (Real.pi / 2)
      ∧ |d.radians - Real.pi / 2| < 1 / 10 ^ 7
      ∧ |d.radians - 1.5708| < 1 / 10 ^ 5
      ∧ d.degrees = F32.round (d.radians * F32.round 57.2957795)
      ∧ d.degrees = 90
      ∧ rightAngleTick MVector_kTol d
      ∧ lineListPoints (DDrawAngleDrawOverride.addUIDrawables MVector_kTol (some d))
        = [[⟨0.1, 0, 0⟩, ⟨0.1, 0.1, 0⟩, ⟨0.1, 0.1, 0⟩, ⟨0, 0.1, 0⟩]] := by
  obtain ⟨hn1, hn2, hang⟩ := MVector.right_angle_axes
  have hdeg : F32.round (13176795 / 8388608 * F32.round 57.2957795) = 90 := by
    rw [F32.round_degrees_constant, F32.round_right_angle_degrees]
  have hd : DDrawAngleDrawOverride.prepareForDrawF32
      { a with V1 := ⟨1, 0, 0⟩, V2 := ⟨0, 1, 0⟩, Normalize := true } oldData fresh
      = some
          { V1 := ⟨1, 0, 0⟩
            V2 := ⟨0, 1, 0⟩
            origin := a.origin
            plane := MVector.cross ⟨1, 0, 0⟩ ⟨0, 1, 0⟩
            radians := 13176795 / 8388608
            degrees := 90
            textColor := a.textColor } := by
    rw [angle_builder_f32_eq]
    simp only [if_true, hn1, hn2, hang, F32.round_pi_div_two, hdeg]
  have htick : rightAngleTick MVector_kTol
      { V1 := ⟨1, 0, 0⟩
        V2 := ⟨0, 1, 0⟩
        origin := a.origin
        plane := MVector.cross ⟨1, 0, 0⟩ ⟨0, 1, 0⟩
        radians := 13176795 / 8388608
        degrees := 90
        textColor := a.textColor } := by
    simp only [rightAngleTick, MVector.isEquivalent, MVector_kTol]
    norm_num
  have hpi1 := Real.pi_gt_d20
  have hpi2 := Real.pi_lt_d20
  refine ⟨_, hd, rfl, F32.round_pi_div_two.symm, ?_, ?_, ?_, rfl, htick, ?_⟩
  · show |(13176795 / 8388608 : ℝ) - Real.pi / 2| < 1 / 10 ^ 7
    rw [abs_lt]
    constructor <;> norm_num at hpi1 hpi2 ⊢ <;> linarith
  · show |(13176795 / 8388608 : ℝ) - 1.5708| < 1 / 10 ^ 5
    rw [abs_lt]
    constructor <;> norm_num
  · show (90 : ℝ) = F32.round (13176795 / 8388608 * F32.round 57.2957795)
    rw [hdeg]
  · simp only [DDrawAngleDrawOverride.addUIDrawables, DrawVector, if_pos htick, mult_eq_min,
      List.cons_append, List.nil_append, lineListPoints, hn1, hn2, MVector.length_axis.2.1,
      MVector.length_axis.2.2, min_self]
    have p1 : ((⟨1, 0, 0⟩ : MVector) * (1 : ℝ)) * (0.1 : ℝ) = ⟨0.1, 0, 0⟩ := by
      show MVector.scale (MVector.scale _ _) _ = _
      simp [MVector.scale]
    have p2 : ((⟨0, 1, 0⟩ : MVector) * (1 : ℝ)) * (0.1 : ℝ) = ⟨0, 0.1, 0⟩ := by
      show MVector.scale (MVector.scale _ _) _ = _
      simp [MVector.scale]
    have p3 : (⟨0.1, 0, 0⟩ : MVector) + ⟨0, 0.1, 0⟩ = ⟨0.1, 0.1, 0⟩ := by
      show MVector.add _ _ = _
      simp [MVector.add]
    rw [p1, p2, p3]

end DebugDraw
